import Mathlib

set_option autoImplicit false

namespace Chart

/-!
Verification of the chart repository's indicator engine and interaction
state machine, as shallowly embedded from
src/.history/src/utils/technicalIndicators_20250311180548.ts and
src/.history/src/hooks/useChartInteraction_20250311182239.ts.

JavaScript `number` arithmetic is modelled over `ℚ`; `null` entries of the
indicator arrays are modelled as `none`. `Math.sqrt` (used only by the
Bollinger-band computation) is not ℚ-computable and is abstracted as a
function parameter. Periods are assumed positive (the configuration
surface only offers positive periods); for `period = 0` the JavaScript
source produces NaN values that have no ℚ counterpart.
-/

/-- One OHLC bar. Only `close` is read by the indicator engine
(the source always accesses `data[i].close`), so the other fields
are omitted from the embedding. -/
structure StockData where
  close : ℚ
deriving DecidableEq, Repr

instance : Inhabited StockData := ⟨⟨0⟩⟩

/-- Build a bar list from a list of closing prices (test helper). -/
def mkBars (closes : List ℚ) : List StockData :=
  closes.map (fun c => ⟨c⟩)

/-- Embedding of `calculateSMA`.  The push-loop over `i` becomes a map over
`List.range data.length`; the inner loop `for j in [0, period)` summing
`data[i - j].close` becomes the mapped sum.  In the non-null branch
`i ≥ period - 1`, so all reads are in range and the `getD` default is
never used. -/
def calculateSMA (data : List StockData) (period : ℕ) : List (Option ℚ) :=
  (List.range data.length).map fun i =>
    if i + 1 < period then none
    else some ((((List.range period).map fun j => (data.getD (i - j) default).close).sum) / (period : ℚ))

/-- Result record of `calculateBollingerBands`. -/
structure BollingerBands where
  upper : List (Option ℚ)
  middle : List (Option ℚ)
  lower : List (Option ℚ)
deriving DecidableEq, Repr

/-- Embedding of `calculateBollingerBands`.  `Math.sqrt` is abstracted as
`sqrtFn`; the source applies it to `sum / period` (population variance)
and uses the result as the standard deviation.  The source fills `upper`
and `lower` in one loop; here each is the corresponding map.  The cast
`middle[i] as number` becomes `(middle.getD i none).getD 0`, safe because
`middle` is defined at every index of the non-null branch. -/
def calculateBollingerBands (sqrtFn : ℚ → ℚ) (data : List StockData) (period : ℕ)
    (stdDev : ℚ) : BollingerBands :=
  let middle := calculateSMA data period
  let upper := (List.range data.length).map fun i =>
    if i + 1 < period then none
    else
      let middleValue := (middle.getD i none).getD 0
      let s := (((List.range period).map fun j =>
        ((data.getD (i - j) default).close - middleValue) ^ 2).sum)
      let std := sqrtFn (s / (period : ℚ))
      some (middleValue + stdDev * std)
  let lower := (List.range data.length).map fun i =>
    if i + 1 < period then none
    else
      let middleValue := (middle.getD i none).getD 0
      let s := (((List.range period).map fun j =>
        ((data.getD (i - j) default).close - middleValue) ^ 2).sum)
      let std := sqrtFn (s / (period : ℚ))
      some (middleValue - stdDev * std)
  ⟨upper, middle, lower⟩

/-- The close-to-close changes: `changes[i] = data[i+1].close - data[i].close`
(the source loop runs `i` from `1` to `data.length - 1`). -/
def priceChanges (data : List StockData) : List ℚ :=
  List.zipWith (fun a b => a.close - b.close) (data.drop 1) data

/-- One RSI value from the current averages:
`rs = avgGain / (avgLoss === 0 ? 0.001 : avgLoss)`,
`rsi = 100 - 100 / (1 + rs)`. -/
def rsiOf (avgGain avgLoss : ℚ) : ℚ :=
  let rs := avgGain / (if avgLoss = 0 then 1/1000 else avgLoss)
  100 - 100 / (1 + rs)

/-- The remaining-values loop of `calculateRSI`: carries `(avgGain, avgLoss)`
through Wilder smoothing and emits one RSI value per change. -/
def rsiLoop (p avgGain avgLoss : ℚ) : List ℚ → List ℚ
  | [] => []
  | c :: cs =>
      let gain := if 0 < c then c else 0
      let loss := if c < 0 then -c else 0
      let avgGain := (avgGain * (p - 1) + gain) / p
      let avgLoss := (avgLoss * (p - 1) + loss) / p
      rsiOf avgGain avgLoss :: rsiLoop p avgGain avgLoss cs

/-- The seeding loop of `calculateRSI`: one pass over the first `period`
changes accumulating `(gainSum, lossSum)`
(`if change > 0 then gain += change else loss += |change|`). -/
def seedSums (period : ℕ) (changes : List ℚ) : ℚ × ℚ :=
  (changes.take period).foldl
    (fun gl c => if 0 < c then (gl.1 + c, gl.2) else (gl.1, gl.2 + |c|)) (0, 0)

/-- Embedding of `calculateRSI`. -/
def calculateRSI (data : List StockData) (period : ℕ) : List (Option ℚ) :=
  if data.length ≤ period then data.map (fun _ => none)
  else
    let changes := priceChanges data
    let gl := seedSums period changes
    let avgGain := gl.1 / (period : ℚ)
    let avgLoss := gl.2 / (period : ℚ)
    List.replicate period none ++ [some (rsiOf avgGain avgLoss)]
      ++ (rsiLoop (period : ℚ) avgGain avgLoss (changes.drop period)).map some

/-- The EMA recurrence loop: given the previous EMA value, emits
`(p - prev) * m + prev` for each remaining price. -/
def emaLoop (m prev : ℚ) : List ℚ → List ℚ
  | [] => []
  | p :: ps =>
      let nxt := (p - prev) * m + prev
      nxt :: emaLoop m nxt ps

/-- Embedding of the inner `calculateEMA` of `calculateMACD`: first
`period - 1` entries null, entry `period - 1` is the SMA seed, then the
recurrence.  When `prices.length < period` the JavaScript seed sum reads
past the end of the array and stores NaN at index `period - 1`; that slot
is modelled as `none` (it is provably never read by `calculateMACD`).
The output length is `max period prices.length`, as in the source. -/
def calculateEMA (prices : List ℚ) (period : ℕ) : List (Option ℚ) :=
  let m : ℚ := 2 / ((period : ℚ) + 1)
  let seedOpt : Option ℚ :=
    if period ≤ prices.length then some ((prices.take period).sum / (period : ℚ)) else none
  List.replicate (period - 1) none ++ [seedOpt]
    ++ (emaLoop m (seedOpt.getD 0) (prices.drop period)).map some

/-- The signal-line re-alignment loop of `calculateMACD`: walks the macd
line carrying `signalIndex` (the count of non-null macd values seen so
far) and pushes either null or `signalEMA[signalIndex - (signalPeriod-1)]`. -/
def alignSignal (signalEMA : List (Option ℚ)) (signalPeriod : ℕ) :
    List (Option ℚ) → ℕ → List (Option ℚ)
  | [], _ => []
  | none :: rest, j => none :: alignSignal signalEMA signalPeriod rest j
  | some _ :: rest, j =>
      (if j + 1 < signalPeriod then none
       else signalEMA.getD (j - (signalPeriod - 1)) none)
        :: alignSignal signalEMA signalPeriod rest (j + 1)

/-- Result record of `calculateMACD`. -/
structure MACDResult where
  macdLine : List (Option ℚ)
  signalLine : List (Option ℚ)
  histogram : List (Option ℚ)
deriving DecidableEq, Repr

/-- Embedding of `calculateMACD`. -/
def calculateMACD (data : List StockData) (fastPeriod slowPeriod signalPeriod : ℕ) :
    MACDResult :=
  let closePrices := data.map (fun d => d.close)
  let fastEMA := calculateEMA closePrices fastPeriod
  let slowEMA := calculateEMA closePrices slowPeriod
  let macdLine := (List.range closePrices.length).map fun i =>
    if i + 1 < slowPeriod then none
    else
      match fastEMA.getD i none, slowEMA.getD i none with
      | some fastValue, some slowValue => some (fastValue - slowValue)
      | _, _ => none
  let macdLineValues := macdLine.filterMap id
  let signalEMA := calculateEMA macdLineValues signalPeriod
  let signalLine := alignSignal signalEMA signalPeriod macdLine 0
  let histogram := (List.range macdLine.length).map fun i =>
    match macdLine.getD i none, signalLine.getD i none with
    | some a, some b => some (a - b)
    | _, _ => none
  ⟨macdLine, signalLine, histogram⟩

/-! ### Viewport operations (useChartInteraction) -/

/-- The wheel-zoom domain update with the zoom factor abstracted
(`handleWheel` instantiates it to `1.1` for `deltaY > 0` and `0.9`
otherwise):
`newRange = max(5, min(N, range * factor))`,
`newStart = max(0, start + (range - newRange) * center)`,
`newEnd = min(N - 1, newStart + newRange)`,
and if `newEnd` landed exactly on `N - 1` then
`newStart = max(0, newEnd - newRange)`. -/
def wheelStepWith (N : ℕ) (factor center s e : ℚ) : ℚ × ℚ :=
  let range := e - s
  let newRange := max 5 (min (N : ℚ) (range * factor))
  let newStart := max 0 (s + (range - newRange) * center)
  let newEnd := min ((N : ℚ) - 1) (newStart + newRange)
  if newEnd = (N : ℚ) - 1 then (max 0 (newEnd - newRange), newEnd) else (newStart, newEnd)

/-- The wheel-zoom step with the source's factors
(`e.deltaY > 0 ? 1.1 : 0.9`). -/
def wheelStep (N : ℕ) (zoomOut : Bool) (center s e : ℚ) : ℚ × ℚ :=
  wheelStepWith N (if zoomOut then 11/10 else 9/10) center s e

/-- `handleWheel` at the domain level: no-op on an empty bar sequence, and
a null domain reads as `[0, N - 1]`. -/
def handleWheel (N : ℕ) (zoomOut : Bool) (center : ℚ) (d : Option (ℚ × ℚ)) :
    Option (ℚ × ℚ) :=
  if N = 0 then d
  else
    let s := match d with | some p => p.1 | none => 0
    let e := match d with | some p => p.2 | none => (N : ℚ) - 1
    some (wheelStep N zoomOut center s e)

/-- The drag-pan domain update of `handleMouseMove`:
`moveDelta = moveRatio * (e - s)`, both bounds shifted and clamped, then
the width re-established when a bound saturates. -/
def dragPanStep (N : ℕ) (moveRatio s e : ℚ) : ℚ × ℚ :=
  let domainRange := e - s
  let moveDelta := moveRatio * domainRange
  let newStart := max 0 (s + moveDelta)
  let newEnd := min ((N : ℚ) - 1) (e + moveDelta)
  if newStart = 0 then (newStart, min ((N : ℚ) - 1) (newStart + domainRange))
  else if newEnd = (N : ℚ) - 1 then (max 0 (newEnd - domainRange), newEnd)
  else (newStart, newEnd)

/-- The ArrowLeft pan: shift left by 10% of the range; applied only when
the shifted window still fits (`newEnd ≤ N - 1`), otherwise unchanged. -/
def arrowLeftStep (N : ℕ) (s e : ℚ) : ℚ × ℚ :=
  let domainRange := e - s
  let panAmount := domainRange * (1/10)
  let newStart := max 0 (s - panAmount)
  let newEnd := newStart + domainRange
  if newEnd ≤ (N : ℚ) - 1 then (newStart, newEnd) else (s, e)

/-- The ArrowRight pan, mirror image of `arrowLeftStep`. -/
def arrowRightStep (N : ℕ) (s e : ℚ) : ℚ × ℚ :=
  let domainRange := e - s
  let panAmount := domainRange * (1/10)
  let newEnd := min ((N : ℚ) - 1) (e + panAmount)
  let newStart := newEnd - domainRange
  if 0 ≤ newStart then (newStart, newEnd) else (s, e)

/-- The `+` key: zoom in 20% around the midpoint.  Note: no minimum-width
clamp is applied here in the source. -/
def plusKeyStep (N : ℕ) (s e : ℚ) : ℚ × ℚ :=
  let range := e - s
  let newRange := range * (8/10)
  let center := (s + e) / 2
  (max 0 (center - newRange / 2), min ((N : ℚ) - 1) (center + newRange / 2))

/-- The `-` key: zoom out 20% around the midpoint. -/
def minusKeyStep (N : ℕ) (s e : ℚ) : ℚ × ℚ :=
  let range := e - s
  let newRange := range * (12/10)
  let center := (s + e) / 2
  (max 0 (center - newRange / 2), min ((N : ℚ) - 1) (center + newRange / 2))

/-- ArrowLeft at the `Option`-domain level (`if (xAxisDomain)` guard). -/
def arrowLeftKey (N : ℕ) (d : Option (ℚ × ℚ)) : Option (ℚ × ℚ) :=
  match d with
  | some p => some (arrowLeftStep N p.1 p.2)
  | none => none

/-- ArrowRight at the `Option`-domain level. -/
def arrowRightKey (N : ℕ) (d : Option (ℚ × ℚ)) : Option (ℚ × ℚ) :=
  match d with
  | some p => some (arrowRightStep N p.1 p.2)
  | none => none

/-- The `+` key at the `Option`-domain level. -/
def plusKey (N : ℕ) (d : Option (ℚ × ℚ)) : Option (ℚ × ℚ) :=
  match d with
  | some p => some (plusKeyStep N p.1 p.2)
  | none => none

/-- The `-` key at the `Option`-domain level. -/
def minusKey (N : ℕ) (d : Option (ℚ × ℚ)) : Option (ℚ × ℚ) :=
  match d with
  | some p => some (minusKeyStep N p.1 p.2)
  | none => none

/-- The viewport domains reachable from the initial (unset) domain by the
source's pan/zoom/reset operations for a bar count `N`. -/
inductive ReachableDomain (N : ℕ) : Option (ℚ × ℚ) → Prop
  | init : ReachableDomain N none
  | wheel (zoomOut : Bool) (center : ℚ) {d : Option (ℚ × ℚ)} :
      ReachableDomain N d → ReachableDomain N (handleWheel N zoomOut center d)
  | drag (moveRatio s e : ℚ) :
      ReachableDomain N (some (s, e)) →
      ReachableDomain N (some (dragPanStep N moveRatio s e))
  | left {d : Option (ℚ × ℚ)} :
      ReachableDomain N d → ReachableDomain N (arrowLeftKey N d)
  | right {d : Option (ℚ × ℚ)} :
      ReachableDomain N d → ReachableDomain N (arrowRightKey N d)
  | plus {d : Option (ℚ × ℚ)} :
      ReachableDomain N d → ReachableDomain N (plusKey N d)
  | minus {d : Option (ℚ × ℚ)} :
      ReachableDomain N d → ReachableDomain N (minusKey N d)
  | escape {d : Option (ℚ × ℚ)} :
      ReachableDomain N d → ReachableDomain N none

/-! ### Drawing-tool state machine (useChartInteraction) -/

/-- The two drawing-line kinds (`"trendline" | "horizontalline"`). -/
inductive LineType where
  | trendline
  | horizontalline
deriving DecidableEq, Repr

/-- The four chart styles. -/
inductive ChartStyle where
  | candlestick
  | ohlc
  | line
  | area
deriving DecidableEq, Repr

/-- A provisional drawing point `{index, price}` (index already rounded
to an integer bar by the source). -/
structure ChartPoint where
  index : ℤ
  price : ℚ
deriving DecidableEq, Repr

/-- A committed drawing line. -/
structure DrawingLine where
  id : String
  type : LineType
  startIndex : ℤ
  startPrice : ℚ
  endIndex : ℤ
  endPrice : ℚ
  color : String
deriving DecidableEq, Repr

/-- The fixed 5-color palette (`lineColors`). -/
def lineColors : List String :=
  ["#FF5722", "#2196F3", "#4CAF50", "#9C27B0", "#E91E63"]

/-- The mutable state owned by `useChartInteraction`
(`crosshairValues` is set only by the rendering layer and is omitted). -/
structure ChartState where
  xAxisDomain : Option (ℚ × ℚ)
  isDragging : Bool
  dragStartX : Option ℚ
  showCrosshair : Bool
  drawingMode : Option LineType
  drawingLines : List DrawingLine
  drawingStart : Option ChartPoint
  drawingEnd : Option ChartPoint
  selectedLine : Option String
  chartStyle : ChartStyle
  showKeyboardShortcuts : Bool
deriving DecidableEq, Repr

/-- The initial values of the `useState` hooks. -/
def initialState : ChartState :=
  { xAxisDomain := none
    isDragging := false
    dragStartX := none
    showCrosshair := true
    drawingMode := none
    drawingLines := []
    drawingStart := none
    drawingEnd := none
    selectedLine := none
    chartStyle := ChartStyle.candlestick
    showKeyboardShortcuts := false }

/-- The keyboard keys handled by `handleKeyDown` (chart-style and help
keys included). -/
inductive ChartKey where
  | arrowLeft
  | arrowRight
  | plus
  | minus
  | escape
  | c
  | t
  | h
  | one
  | two
  | three
  | four
  | question
deriving DecidableEq, Repr

/-- The host events delivered to the controller.  Mouse events carry the
pointer position and the chart rectangle (the source reads them from the
DOM; a missing rectangle aborts the handler and is not modelled).
`mouseUp` carries the fresh line id the source mints from the clock. -/
inductive ChartEvent where
  | wheel (zoomOut : Bool) (center : ℚ)
  | mouseDown (clientX clientY rectLeft rectTop rectW rectH : ℚ)
  | mouseMove (clientX clientY rectLeft rectTop rectW rectH : ℚ)
  | mouseUp (newId : String)
  | key (k : ChartKey)

/-- Pixel-to-data conversion shared by `handleMouseDown` and
`handleMouseMove` (the source repeats this block verbatim in both
handlers): visible index window from the domain (floored/ceiled, or the
full range when unset), linear interpolation of the x position rounded to
the nearest bar (`Math.round x = ⌊x + 1/2⌋`), and the inverted y mapping
with the source's placeholder price range `[0, 1000]`. -/
def dataPoint (N : ℕ) (domain : Option (ℚ × ℚ)) (relX relY chartW chartH : ℚ) :
    ℤ × ℚ :=
  let visibleStartIndex : ℤ := match domain with | some d => ⌊d.1⌋ | none => 0
  let visibleEndIndex : ℤ := match domain with | some d => ⌈d.2⌉ | none => (N : ℤ) - 1
  let visibleRange : ℤ := visibleEndIndex - visibleStartIndex
  let indexPosition : ℚ := (visibleStartIndex : ℚ) + (relX / chartW) * (visibleRange : ℚ)
  let indexRounded : ℤ := ⌊indexPosition + 1/2⌋
  let minPrice : ℚ := 0
  let maxPrice : ℚ := 1000
  let priceRange := maxPrice - minPrice
  let price := maxPrice - (relY / chartH) * priceRange
  (indexRounded, price)

/-- `toggleDrawingMode`: re-selecting the current mode clears it. -/
def toggleDrawingMode (current arg : Option LineType) : Option LineType :=
  if current = arg then none else arg

/-- The `handleKeyDown` dispatch. `Escape` runs `resetZoom`
(domain → unset) and clears the drawing mode — and nothing else. -/
def handleKey (N : ℕ) (k : ChartKey) (st : ChartState) : ChartState :=
  match k with
  | ChartKey.arrowLeft => { st with xAxisDomain := arrowLeftKey N st.xAxisDomain }
  | ChartKey.arrowRight => { st with xAxisDomain := arrowRightKey N st.xAxisDomain }
  | ChartKey.plus => { st with xAxisDomain := plusKey N st.xAxisDomain }
  | ChartKey.minus => { st with xAxisDomain := minusKey N st.xAxisDomain }
  | ChartKey.escape => { st with xAxisDomain := none, drawingMode := none }
  | ChartKey.c => { st with showCrosshair := !st.showCrosshair }
  | ChartKey.t =>
      let arg := if st.drawingMode = some LineType.trendline then none
        else some LineType.trendline
      { st with drawingMode := toggleDrawingMode st.drawingMode arg }
  | ChartKey.h =>
      let arg := if st.drawingMode = some LineType.horizontalline then none
        else some LineType.horizontalline
      { st with drawingMode := toggleDrawingMode st.drawingMode arg }
  | ChartKey.one => { st with chartStyle := ChartStyle.candlestick }
  | ChartKey.two => { st with chartStyle := ChartStyle.ohlc }
  | ChartKey.three => { st with chartStyle := ChartStyle.line }
  | ChartKey.four => { st with chartStyle := ChartStyle.area }
  | ChartKey.question => { st with showKeyboardShortcuts := !st.showKeyboardShortcuts }

/-- One event-handler invocation (`handleWheel`, `handleMouseDown`,
`handleMouseMove`, `handleMouseUp`, `handleKeyDown`), run to completion. -/
def step (N : ℕ) (ev : ChartEvent) (st : ChartState) : ChartState :=
  match ev with
  | ChartEvent.wheel zoomOut center =>
      { st with xAxisDomain := handleWheel N zoomOut center st.xAxisDomain }
  | ChartEvent.mouseDown clientX clientY rectLeft rectTop rectW rectH =>
      match st.drawingMode with
      | some _ =>
          let p := dataPoint N st.xAxisDomain (clientX - rectLeft) (clientY - rectTop)
            rectW rectH
          { st with drawingStart := some ⟨p.1, p.2⟩, drawingEnd := none }
      | none => { st with isDragging := true, dragStartX := some clientX }
  | ChartEvent.mouseMove clientX clientY rectLeft rectTop rectW rectH =>
      match st.drawingMode, st.drawingStart with
      | some mode, some ds =>
          let p := dataPoint N st.xAxisDomain (clientX - rectLeft) (clientY - rectTop)
            rectW rectH
          if mode = LineType.horizontalline then
            { st with drawingEnd := some ⟨p.1, ds.price⟩ }
          else
            { st with drawingEnd := some ⟨p.1, p.2⟩ }
      | _, _ =>
          match st.isDragging, st.dragStartX, st.xAxisDomain with
          | true, some dx, some d =>
              let chartWidth := if rectW = 0 then 1 else rectW
              let moveRatio := (dx - clientX) / chartWidth
              { st with xAxisDomain := some (dragPanStep N moveRatio d.1 d.2),
                        dragStartX := some clientX }
          | _, _, _ => st
  | ChartEvent.mouseUp newId =>
      match st.drawingMode, st.drawingStart, st.drawingEnd with
      | some mode, some ds, some de =>
          let newLine : DrawingLine :=
            { id := newId
              type := mode
              startIndex := ds.index
              startPrice := ds.price
              endIndex := de.index
              endPrice := de.price
              color := lineColors.getD (st.drawingLines.length % lineColors.length) "" }
          { st with drawingLines := st.drawingLines ++ [newLine],
                    drawingStart := none, drawingEnd := none }
      | _, _, _ => { st with isDragging := false, dragStartX := none }
  | ChartEvent.key k => handleKey N k st

/-- Run a sequence of events. -/
def runEvents (N : ℕ) (evs : List ChartEvent) (st : ChartState) : ChartState :=
  evs.foldl (fun s ev => step N ev s) st

/-- `deleteLine`: drop every line whose id matches and clear the
selection unconditionally. -/
def deleteLine (lineId : String) (st : ChartState) : ChartState :=
  { st with drawingLines := st.drawingLines.filter (fun l => l.id ≠ lineId),
            selectedLine := none }

/-- Whether an event is one of the pointer events
(pointerDown / pointerMove / pointerUp). -/
def ChartEvent.isPointer : ChartEvent → Bool
  | ChartEvent.mouseDown _ _ _ _ _ _ => true
  | ChartEvent.mouseMove _ _ _ _ _ _ => true
  | ChartEvent.mouseUp _ => true
  | _ => false

/-! ### Specification-side definitions

These restate, in closed indexed form, what the claims assert about the
loops above; the theorems connect them to the embeddings. -/

/-- The trailing window of `period` bars ending at index `i` (inclusive). -/
def trailingWindow (data : List StockData) (period i : ℕ) : List StockData :=
  (data.drop (i + 1 - period)).take period

/-- The gain of one close-to-close change. -/
def gainOf (c : ℚ) : ℚ := if 0 < c then c else 0

/-- The loss of one close-to-close change. -/
def lossOf (c : ℚ) : ℚ := if c < 0 then -c else 0

/-- Wilder-smoothed average gain after `j` smoothing steps, seeded with
the simple mean of gains over the first `period` changes. -/
def avgGainAt (changes : List ℚ) (period : ℕ) : ℕ → ℚ
  | 0 => ((changes.take period).map gainOf).sum / (period : ℚ)
  | j + 1 =>
      (avgGainAt changes period j * ((period : ℚ) - 1)
        + gainOf (changes.getD (period + j) 0)) / (period : ℚ)

/-- Wilder-smoothed average loss after `j` smoothing steps. -/
def avgLossAt (changes : List ℚ) (period : ℕ) : ℕ → ℚ
  | 0 => ((changes.take period).map lossOf).sum / (period : ℚ)
  | j + 1 =>
      (avgLossAt changes period j * ((period : ℚ) - 1)
        + lossOf (changes.getD (period + j) 0)) / (period : ℚ)

/-- The EMA value sequence of the claim: seeded at the SMA of the first
`p` prices, then `ema' = (price - ema) * (2/(p+1)) + ema`; `emaVal j` is
the value `j` steps after the seed (absolute index `p - 1 + j`). -/
def emaVal (prices : List ℚ) (p : ℕ) : ℕ → ℚ
  | 0 => (prices.take p).sum / (p : ℚ)
  | j + 1 =>
      (prices.getD (p + j) 0 - emaVal prices p j) * (2 / ((p : ℚ) + 1))
        + emaVal prices p j

/-- The number of non-null entries among the first `i` entries. -/
def validCountUpTo (l : List (Option ℚ)) (i : ℕ) : ℕ :=
  ((l.take i).filterMap id).length

/-! ### Concrete states used by witnesses and counterexamples -/

/-- In-bounds predicate for a concrete domain pair. -/
def domInBounds (N : ℕ) (p : ℚ × ℚ) : Prop :=
  0 ≤ p.1 ∧ p.1 ≤ p.2 ∧ p.2 ≤ (N : ℚ) - 1

/-- Width of a domain pair. -/
def domWidth (p : ℚ × ℚ) : ℚ := p.2 - p.1
/-- A concrete two-line state used by the C10 witness: two committed
lines and a selection pointing at the second one. -/
def stC10 : ChartState :=
  { initialState with
    drawingLines :=
      [{ id := "a", type := LineType.trendline, startIndex := 1, startPrice := 10,
         endIndex := 2, endPrice := 20, color := "#FF5722" },
       { id := "b", type := LineType.horizontalline, startIndex := 3, startPrice := 30,
         endIndex := 4, endPrice := 30, color := "#2196F3" }]
    selectedLine := some "b" }
/-- A state with an in-progress trendline (mode set, both provisional
points captured), used to refute C6 as stated. -/
def stC6 : ChartState :=
  { initialState with
    drawingMode := some LineType.trendline
    drawingStart := some ⟨10, 100⟩
    drawingEnd := some ⟨20, 120⟩ }
/-- A clean horizontal-mode entry state for the C9 witness. -/
def stC9 : ChartState :=
  { initialState with drawingMode := some LineType.horizontalline }

/-- The line committed by the C9 witness gesture. -/
def lineC9 : DrawingLine :=
  { id := "W", type := LineType.horizontalline, startIndex := 10, startPrice := 100,
    endIndex := 20, endPrice := 100, color := "#FF5722" }

/-! ### Helper lemmas -/

lemma getD_range_map {α : Type} (f : ℕ → α) (n i : ℕ) (d : α) (h : i < n) :
    ((List.range n).map f).getD i d = f i := by
  simp [List.getD_eq_getElem?_getD, List.getElem?_map, List.getElem?_range h]

lemma range_window_sum (data : List StockData) (i : ℕ) (hi : i < data.length)
    (g : StockData → ℚ) :
    ∀ p : ℕ, p ≤ i + 1 →
      (((List.range p).map fun j => g (data.getD (i - j) default)).sum)
        = (((data.drop (i + 1 - p)).take p).map g).sum := by
  intro p
  induction p with
  | zero => simp
  | succ p ih =>
      intro hp
      have hpi : p ≤ i := by omega
      have hip : i - p < data.length := lt_of_le_of_lt (Nat.sub_le i p) hi
      rw [List.range_succ, List.map_append, List.sum_append]
      have hdrop : data.drop (i + 1 - (p + 1)) = data[i - p] :: data.drop (i - p + 1) := by
        have h1 : i + 1 - (p + 1) = i - p := by omega
        rw [h1, List.drop_eq_getElem_cons hip]
      rw [hdrop, List.take_succ_cons]
      simp only [List.map_cons, List.sum_cons, List.map_nil, List.sum_nil]
      have h2 : i - p + 1 = i + 1 - p := by omega
      rw [h2, ← ih (by omega)]
      have hgetD : data.getD (i - p) default = data[i - p] := by
        simp [List.getD_eq_getElem?_getD, List.getElem?_eq_getElem hip]
      rw [hgetD]
      ring

lemma calculateSMA_length (data : List StockData) (p : ℕ) :
    (calculateSMA data p).length = data.length := by
  simp [calculateSMA]

lemma calculateSMA_getD_lt (data : List StockData) (p i : ℕ)
    (h : i + 1 < p) (hi : i < data.length) :
    (calculateSMA data p).getD i none = none := by
  rw [calculateSMA, getD_range_map _ _ _ _ hi, if_pos h]

lemma calculateSMA_getD_ge (data : List StockData) (p i : ℕ)
    (hp : p ≤ i + 1) (hi : i < data.length) :
    (calculateSMA data p).getD i none
      = some ((((data.drop (i + 1 - p)).take p).map (fun b => b.close)).sum / (p : ℚ)) := by
  rw [calculateSMA, getD_range_map _ _ _ _ hi, if_neg (by omega),
    range_window_sum data i hi _ p hp]

/-- Claim C4: `computeSMA(bars, p)` has the same length as `bars`, its entry
at `i` is null exactly when `i < p - 1`, and otherwise equals the
arithmetic mean of the closes of the trailing `p` bars ending at `i`. -/
theorem C4_sma_correct (data : List StockData) (p : ℕ) (hp : 1 ≤ p) :
    (calculateSMA data p).length = data.length ∧
    (∀ i, i < data.length → ((calculateSMA data p).getD i none = none ↔ i < p - 1)) ∧
    (∀ i, i < data.length → p - 1 ≤ i →
      (calculateSMA data p).getD i none
        = some ((((data.drop (i + 1 - p)).take p).map (fun b => b.close)).sum / (p : ℚ))) := by
  refine ⟨calculateSMA_length data p, ?_, ?_⟩
  · intro i hi
    constructor
    · intro h
      by_contra hlt
      rw [calculateSMA_getD_ge data p i (by omega) hi] at h
      exact Option.noConfusion h
    · intro h
      exact calculateSMA_getD_lt data p i (by omega) hi
  · intro i hi hpi
    exact calculateSMA_getD_ge data p i (by omega) hi

/-- Witness for C4: the 25 ascending-bar scenario with period 20. -/
theorem C4_sma_correct_witness :
    (calculateSMA (mkBars ((List.range 25).map fun j => ((j : ℚ) + 1))) 20).length
        = (mkBars ((List.range 25).map fun j => ((j : ℚ) + 1))).length ∧
    (∀ i, i < (mkBars ((List.range 25).map fun j => ((j : ℚ) + 1))).length →
      ((calculateSMA (mkBars ((List.range 25).map fun j => ((j : ℚ) + 1))) 20).getD i none = none
        ↔ i < 20 - 1)) ∧
    (∀ i, i < (mkBars ((List.range 25).map fun j => ((j : ℚ) + 1))).length → 20 - 1 ≤ i →
      (calculateSMA (mkBars ((List.range 25).map fun j => ((j : ℚ) + 1))) 20).getD i none
        = some (((((mkBars ((List.range 25).map fun j => ((j : ℚ) + 1))).drop (i + 1 - 20)).take 20).map
            (fun b => b.close)).sum / (20 : ℚ))) :=
  C4_sma_correct (mkBars ((List.range 25).map fun j => ((j : ℚ) + 1))) 20 (by norm_num)

lemma bollinger_all_none (data : List StockData) (p n : ℕ) (hn : n = data.length)
    (hnp : n < p) (f : ℕ → Option ℚ)
    (hf : ∀ i, i + 1 < p → f i = none) :
    (List.range n).map f = List.replicate n none := by
  rw [List.eq_replicate_iff]
  refine ⟨by simp, ?_⟩
  intro b hb
  rw [List.mem_map] at hb
  obtain ⟨a, ha, rfl⟩ := hb
  rw [List.mem_range] at ha
  exact hf a (by omega)

/-- Claim C5: Bollinger bands: `middle` is the SMA, the bands are
`middle ± multiplier · σ` with `σ` the square root of the population
variance (denominator `p`) over the same trailing window, and all three
arrays are entirely null when there are fewer than `p` bars.
`Math.sqrt` is modelled by the abstract parameter `sqrtFn`. -/
theorem C5_bollinger_correct (sqrtFn : ℚ → ℚ) (data : List StockData) (p : ℕ) (m : ℚ)
    (hp : 1 ≤ p) :
    ((calculateBollingerBands sqrtFn data p m).middle = calculateSMA data p) ∧
    ((calculateBollingerBands sqrtFn data p m).upper.length = data.length ∧
     (calculateBollingerBands sqrtFn data p m).middle.length = data.length ∧
     (calculateBollingerBands sqrtFn data p m).lower.length = data.length) ∧
    (∀ i, i < data.length → p - 1 ≤ i →
      ∃ μ σ, (calculateBollingerBands sqrtFn data p m).middle.getD i none = some μ ∧
        σ = sqrtFn ((((data.drop (i + 1 - p)).take p).map
              (fun b => (b.close - μ) ^ 2)).sum / (p : ℚ)) ∧
        (calculateBollingerBands sqrtFn data p m).upper.getD i none = some (μ + m * σ) ∧
        (calculateBollingerBands sqrtFn data p m).lower.getD i none = some (μ - m * σ)) ∧
    (data.length < p →
      (calculateBollingerBands sqrtFn data p m).upper = List.replicate data.length none ∧
      (calculateBollingerBands sqrtFn data p m).middle = List.replicate data.length none ∧
      (calculateBollingerBands sqrtFn data p m).lower = List.replicate data.length none) := by
  refine ⟨rfl, ⟨by simp [calculateBollingerBands, calculateSMA], ?_⟩, ?_, ?_⟩
  · constructor
    · simp [calculateBollingerBands, calculateSMA]
    · simp [calculateBollingerBands]
  · intro i hi hpi
    have hmid := calculateSMA_getD_ge data p i (by omega) hi
    set μ := (((data.drop (i + 1 - p)).take p).map (fun b => b.close)).sum / (p : ℚ) with hμ
    refine ⟨μ, sqrtFn ((((data.drop (i + 1 - p)).take p).map
      (fun b => (b.close - μ) ^ 2)).sum / (p : ℚ)), ?_, rfl, ?_, ?_⟩
    · exact hmid
    · show ((List.range data.length).map _).getD i none = _
      rw [getD_range_map _ _ _ _ hi, if_neg (by omega)]
      simp only [hmid, Option.getD_some]
      rw [range_window_sum data i hi (fun b => (b.close - μ) ^ 2) p (by omega)]
    · show ((List.range data.length).map _).getD i none = _
      rw [getD_range_map _ _ _ _ hi, if_neg (by omega)]
      simp only [hmid, Option.getD_some]
      rw [range_window_sum data i hi (fun b => (b.close - μ) ^ 2) p (by omega)]
  · intro hlen
    refine ⟨?_, ?_, ?_⟩ <;>
      exact bollinger_all_none data p data.length rfl hlen _ (fun i h => by simp [if_pos h])

/-- Witness for C5 at a concrete input (variance 1, `sqrtFn = id`). -/
theorem C5_bollinger_correct_witness :
    ((calculateBollingerBands id (mkBars [1, 3]) 2 2).middle = calculateSMA (mkBars [1, 3]) 2) ∧
    ((calculateBollingerBands id (mkBars [1, 3]) 2 2).upper.length = (mkBars [1, 3]).length ∧
     (calculateBollingerBands id (mkBars [1, 3]) 2 2).middle.length = (mkBars [1, 3]).length ∧
     (calculateBollingerBands id (mkBars [1, 3]) 2 2).lower.length = (mkBars [1, 3]).length) ∧
    (∀ i, i < (mkBars [1, 3]).length → 2 - 1 ≤ i →
      ∃ μ σ, (calculateBollingerBands id (mkBars [1, 3]) 2 2).middle.getD i none = some μ ∧
        σ = id (((((mkBars [1, 3]).drop (i + 1 - 2)).take 2).map
              (fun b => (b.close - μ) ^ 2)).sum / (2 : ℚ)) ∧
        (calculateBollingerBands id (mkBars [1, 3]) 2 2).upper.getD i none = some (μ + 2 * σ) ∧
        (calculateBollingerBands id (mkBars [1, 3]) 2 2).lower.getD i none = some (μ - 2 * σ)) ∧
    ((mkBars [1, 3]).length < 2 →
      (calculateBollingerBands id (mkBars [1, 3]) 2 2).upper = List.replicate (mkBars [1, 3]).length none ∧
      (calculateBollingerBands id (mkBars [1, 3]) 2 2).middle = List.replicate (mkBars [1, 3]).length none ∧
      (calculateBollingerBands id (mkBars [1, 3]) 2 2).lower = List.replicate (mkBars [1, 3]).length none) :=
  C5_bollinger_correct id (mkBars [1, 3]) 2 2 (by norm_num)

/-- Claim C10: `deleteLine(id)` removes exactly the lines with that id,
preserves every other line and their relative order (sublist), always
clears the selection — also when the deleted line was not the selected
one, and when no line with that id exists (then the collection is
unchanged) — and touches no other state. -/
theorem C10_deleteLine_correct (st : ChartState) (lineId : String) :
    (deleteLine lineId st).selectedLine = none ∧
    (deleteLine lineId st).drawingLines.Sublist st.drawingLines ∧
    (∀ l ∈ st.drawingLines, l.id ≠ lineId → l ∈ (deleteLine lineId st).drawingLines) ∧
    (∀ l ∈ (deleteLine lineId st).drawingLines, l ∈ st.drawingLines ∧ l.id ≠ lineId) ∧
    ((∀ l ∈ st.drawingLines, l.id ≠ lineId) →
      (deleteLine lineId st).drawingLines = st.drawingLines) ∧
    (deleteLine lineId st).xAxisDomain = st.xAxisDomain ∧
    (deleteLine lineId st).drawingMode = st.drawingMode ∧
    (deleteLine lineId st).drawingStart = st.drawingStart ∧
    (deleteLine lineId st).drawingEnd = st.drawingEnd ∧
    (deleteLine lineId st).chartStyle = st.chartStyle := by
  refine ⟨rfl, List.filter_sublist _, ?_, ?_, ?_, rfl, rfl, rfl, rfl, rfl⟩
  · intro l hl hne
    simp [deleteLine, List.mem_filter, hl, hne]
  · intro l hl
    simp only [deleteLine, List.mem_filter] at hl
    exact ⟨hl.1, by simpa using hl.2⟩
  · intro hall
    simp only [deleteLine]
    rw [List.filter_eq_self]
    intro a ha
    simpa using hall a ha

/-- Witness for C10 on a concrete two-line state where a different line
is selected and the deleted id matches the first line. -/
theorem C10_deleteLine_correct_witness :
    (deleteLine "a" stC10).selectedLine = none ∧
    (deleteLine "a" stC10).drawingLines.Sublist stC10.drawingLines ∧
    (∀ l ∈ stC10.drawingLines, l.id ≠ "a" → l ∈ (deleteLine "a" stC10).drawingLines) ∧
    (∀ l ∈ (deleteLine "a" stC10).drawingLines, l ∈ stC10.drawingLines ∧ l.id ≠ "a") ∧
    ((∀ l ∈ stC10.drawingLines, l.id ≠ "a") →
      (deleteLine "a" stC10).drawingLines = stC10.drawingLines) ∧
    (deleteLine "a" stC10).xAxisDomain = stC10.xAxisDomain ∧
    (deleteLine "a" stC10).drawingMode = stC10.drawingMode ∧
    (deleteLine "a" stC10).drawingStart = stC10.drawingStart ∧
    (deleteLine "a" stC10).drawingEnd = stC10.drawingEnd ∧
    (deleteLine "a" stC10).chartStyle = stC10.chartStyle :=
  C10_deleteLine_correct stC10 "a"

/-- Claim C6 fails as stated: Escape does not clear the provisional
start/end points, and a pointer-up after re-activating a drawing mode
commits the line begun before the Escape. -/
theorem C6_counterexample :
    (step 50 (ChartEvent.key ChartKey.escape) stC6).drawingStart = some ⟨10, 100⟩ ∧
    (step 50 (ChartEvent.key ChartKey.escape) stC6).drawingEnd = some ⟨20, 120⟩ ∧
    (runEvents 50 [ChartEvent.key ChartKey.escape, ChartEvent.key ChartKey.t,
        ChartEvent.mouseUp "stale"] stC6).drawingLines
      = [{ id := "stale", type := LineType.trendline, startIndex := 10, startPrice := 100,
           endIndex := 20, endPrice := 120, color := "#FF5722" }] :=
  ⟨rfl, rfl, rfl⟩

/-- Claim C6 (amended): Escape resets the viewport domain to unset and
clears the drawing mode, but leaves the provisional start and end points
(and the committed lines) unchanged, so a pointer-up after re-activating
a drawing mode can still commit a line begun before the Escape. -/
theorem C6_escape_amended (N : ℕ) (st : ChartState) :
    (step N (ChartEvent.key ChartKey.escape) st).xAxisDomain = none ∧
    (step N (ChartEvent.key ChartKey.escape) st).drawingMode = none ∧
    (step N (ChartEvent.key ChartKey.escape) st).drawingStart = st.drawingStart ∧
    (step N (ChartEvent.key ChartKey.escape) st).drawingEnd = st.drawingEnd ∧
    (step N (ChartEvent.key ChartKey.escape) st).drawingLines = st.drawingLines ∧
    (step N (ChartEvent.key ChartKey.escape) st).selectedLine = st.selectedLine :=
  ⟨rfl, rfl, rfl, rfl, rfl, rfl⟩

lemma wheelStepWith_props (N : ℕ) (hN : 6 ≤ N) (f c s e : ℚ) :
    domInBounds N (wheelStepWith N f c s e) ∧ 5 ≤ domWidth (wheelStepWith N f c s e) := by
  have hN' : (6 : ℚ) ≤ (N : ℚ) := by exact_mod_cast hN
  simp only [wheelStepWith, domInBounds, domWidth]
  set range := e - s with hrange
  set nr := max 5 (min (N : ℚ) (range * f)) with hnr
  have h5 : 5 ≤ nr := le_max_left _ _
  set ns := max 0 (s + (range - nr) * c) with hns
  have hns0 : 0 ≤ ns := le_max_left _ _
  set nE := min ((N : ℚ) - 1) (ns + nr) with hnE
  have hnE1 : nE ≤ (N : ℚ) - 1 := min_le_left _ _
  by_cases hcase : nE = (N : ℚ) - 1
  · simp only [if_pos hcase]
    rcases le_total (nE - nr) 0 with h | h
    · rw [max_eq_left h]
      refine ⟨⟨le_refl 0, by linarith, hnE1⟩, by linarith⟩
    · rw [max_eq_right h]
      refine ⟨⟨by linarith, by linarith, hnE1⟩, by linarith⟩
  · simp only [if_neg hcase]
    have hlt : ns + nr ≤ (N : ℚ) - 1 := by
      rcases le_total ((N : ℚ) - 1) (ns + nr) with h | h
      · exact absurd (min_eq_left h) hcase
      · exact h
    have hEeq : nE = ns + nr := min_eq_right hlt
    refine ⟨⟨hns0, by rw [hEeq]; linarith, hnE1⟩, by rw [hEeq]; linarith⟩

lemma wheelStep_props (N : ℕ) (hN : 6 ≤ N) (zoomOut : Bool) (c s e : ℚ) :
    domInBounds N (wheelStep N zoomOut c s e) ∧ 5 ≤ domWidth (wheelStep N zoomOut c s e) :=
  wheelStepWith_props N hN _ c s e

lemma dragPanStep_props (N : ℕ) (hN : 6 ≤ N) (r s e : ℚ)
    (h0 : 0 ≤ s) (hse : s ≤ e) (heN : e ≤ (N : ℚ) - 1) :
    domInBounds N (dragPanStep N r s e) ∧
    (5 ≤ e - s → 5 ≤ domWidth (dragPanStep N r s e)) := by
  have hN' : (6 : ℚ) ≤ (N : ℚ) := by exact_mod_cast hN
  simp only [dragPanStep, domInBounds, domWidth]
  set dr := e - s with hdr
  have hdr0 : 0 ≤ dr := by simp [hdr]; linarith
  set md := r * dr with hmd
  set ns := max 0 (s + md) with hns
  have hns0 : 0 ≤ ns := le_max_left _ _
  set nE := min ((N : ℚ) - 1) (e + md) with hnE
  by_cases h1 : ns = 0
  · simp only [if_pos h1]
    refine ⟨⟨le_of_eq h1.symm, ?_, min_le_left _ _⟩, ?_⟩
    · rw [h1]
      exact le_min (by linarith) (by linarith)
    · intro h5
      rw [h1]
      have : 5 ≤ min ((N : ℚ) - 1) (0 + dr) := le_min (by linarith) (by linarith)
      linarith
  · simp only [if_neg h1]
    by_cases h2 : nE = (N : ℚ) - 1
    · simp only [if_pos h2]
      rcases le_total ((N : ℚ) - 1 - dr) 0 with h | h
      · rw [h2, max_eq_left h]
        exact ⟨⟨le_refl 0, by linarith, le_refl _⟩, fun _ => by linarith⟩
      · rw [h2, max_eq_right h]
        exact ⟨⟨by linarith, by linarith, le_refl _⟩, fun h5 => by linarith⟩
    · simp only [if_neg h2]
      have hnsv : ns = s + md := by
        rcases le_total (s + md) 0 with h | h
        · exact absurd (max_eq_left h) h1
        · exact max_eq_right h
      have hnEv : nE = e + md := by
        rcases le_total ((N : ℚ) - 1) (e + md) with h | h
        · exact absurd (min_eq_left h) h2
        · exact min_eq_right h
      refine ⟨⟨hns0, ?_, min_le_left _ _⟩, fun h5 => ?_⟩
      · rw [hnsv, hnEv]; linarith
      · rw [hnsv, hnEv]; linarith

lemma arrowLeftStep_props (N : ℕ) (hN : 6 ≤ N) (s e : ℚ)
    (h0 : 0 ≤ s) (hse : s ≤ e) (heN : e ≤ (N : ℚ) - 1) :
    domInBounds N (arrowLeftStep N s e) ∧
    (5 ≤ e - s → 5 ≤ domWidth (arrowLeftStep N s e)) := by
  simp only [arrowLeftStep, domInBounds, domWidth]
  set dr := e - s with hdr
  have hdr0 : 0 ≤ dr := by simp [hdr]; linarith
  set ns := max 0 (s - dr * (1/10)) with hns
  have hns0 : 0 ≤ ns := le_max_left _ _
  by_cases h1 : ns + dr ≤ (N : ℚ) - 1
  · simp only [if_pos h1]
    exact ⟨⟨hns0, by linarith, h1⟩, fun h5 => by linarith⟩
  · simp only [if_neg h1]
    exact ⟨⟨h0, hse, heN⟩, fun h5 => by linarith⟩

lemma arrowRightStep_props (N : ℕ) (hN : 6 ≤ N) (s e : ℚ)
    (h0 : 0 ≤ s) (hse : s ≤ e) (heN : e ≤ (N : ℚ) - 1) :
    domInBounds N (arrowRightStep N s e) ∧
    (5 ≤ e - s → 5 ≤ domWidth (arrowRightStep N s e)) := by
  simp only [arrowRightStep, domInBounds, domWidth]
  set dr := e - s with hdr
  have hdr0 : 0 ≤ dr := by simp [hdr]; linarith
  set nE := min ((N : ℚ) - 1) (e + dr * (1/10)) with hnE
  have hnE1 : nE ≤ (N : ℚ) - 1 := min_le_left _ _
  by_cases h1 : 0 ≤ nE - dr
  · simp only [if_pos h1]
    exact ⟨⟨h1, by linarith, hnE1⟩, fun h5 => by linarith⟩
  · simp only [if_neg h1]
    exact ⟨⟨h0, hse, heN⟩, fun h5 => by linarith⟩

lemma plusKeyStep_props (N : ℕ) (hN : 6 ≤ N) (s e : ℚ)
    (h0 : 0 ≤ s) (hse : s ≤ e) (heN : e ≤ (N : ℚ) - 1) :
    domInBounds N (plusKeyStep N s e) := by
  have hN' : (6 : ℚ) ≤ (N : ℚ) := by exact_mod_cast hN
  simp only [plusKeyStep, domInBounds]
  have hrnn : 0 ≤ (e - s) * (8/10) := by nlinarith
  refine ⟨le_max_left _ _, ?_, min_le_left _ _⟩
  have hc0 : 0 ≤ (s + e) / 2 := by linarith
  have hc1 : (s + e) / 2 ≤ (N : ℚ) - 1 := by linarith
  apply max_le
  · exact le_min (by linarith) (by linarith)
  · exact le_min (by linarith) (by linarith)

lemma minusKeyStep_props (N : ℕ) (hN : 6 ≤ N) (s e : ℚ)
    (h0 : 0 ≤ s) (hse : s ≤ e) (heN : e ≤ (N : ℚ) - 1) :
    domInBounds N (minusKeyStep N s e) ∧
    (5 ≤ e - s → 5 ≤ domWidth (minusKeyStep N s e)) := by
  have hN' : (6 : ℚ) ≤ (N : ℚ) := by exact_mod_cast hN
  simp only [minusKeyStep, domInBounds, domWidth]
  have hrnn : 0 ≤ (e - s) * (12/10) := by nlinarith
  have hc0 : 0 ≤ (s + e) / 2 := by linarith
  have hc1 : (s + e) / 2 ≤ (N : ℚ) - 1 := by linarith
  constructor
  · refine ⟨le_max_left _ _, ?_, min_le_left _ _⟩
    apply max_le
    · exact le_min (by linarith) (by linarith)
    · exact le_min (by linarith) (by linarith)
  · intro h5
    rcases le_total ((s + e) / 2 - (e - s) * (12/10) / 2) 0 with hL | hL
    · rw [max_eq_left hL]
      rcases le_total ((N : ℚ) - 1) ((s + e) / 2 + (e - s) * (12/10) / 2) with hR | hR
      · rw [min_eq_left hR]; linarith
      · rw [min_eq_right hR]; linarith
    · rw [max_eq_right hL]
      rcases le_total ((N : ℚ) - 1) ((s + e) / 2 + (e - s) * (12/10) / 2) with hR | hR
      · rw [min_eq_left hR]; linarith
      · rw [min_eq_right hR]; linarith

lemma reachable_inBounds (N : ℕ) (hN : 6 ≤ N) {d : Option (ℚ × ℚ)}
    (hd : ReachableDomain N d) :
    ∀ s e : ℚ, d = some (s, e) → domInBounds N (s, e) := by
  have hN0 : N ≠ 0 := by omega
  induction hd with
  | init => intro s e h; cases h
  | wheel zoomOut center hprev ih =>
      intro s e h
      rw [handleWheel.eq_def, if_neg hN0] at h
      injection h with h'
      rw [← h']
      exact (wheelStep_props N hN zoomOut center _ _).1
  | drag moveRatio s0 e0 hprev ih =>
      intro s e h
      injection h with h'
      obtain ⟨a, b, c⟩ := ih s0 e0 rfl
      rw [← h']
      exact (dragPanStep_props N hN moveRatio s0 e0 a b c).1
  | left hprev ih =>
      rename_i d0
      intro s e h
      cases d0 with
      | none => cases h
      | some p =>
          obtain ⟨a, b, c⟩ := ih p.1 p.2 rfl
          rw [arrowLeftKey.eq_def] at h
          simp only at h
          injection h with h'
          rw [← h']
          exact (arrowLeftStep_props N hN p.1 p.2 a b c).1
  | right hprev ih =>
      rename_i d0
      intro s e h
      cases d0 with
      | none => cases h
      | some p =>
          obtain ⟨a, b, c⟩ := ih p.1 p.2 rfl
          rw [arrowRightKey.eq_def] at h
          simp only at h
          injection h with h'
          rw [← h']
          exact (arrowRightStep_props N hN p.1 p.2 a b c).1
  | plus hprev ih =>
      rename_i d0
      intro s e h
      cases d0 with
      | none => cases h
      | some p =>
          obtain ⟨a, b, c⟩ := ih p.1 p.2 rfl
          rw [plusKey.eq_def] at h
          simp only at h
          injection h with h'
          rw [← h']
          exact plusKeyStep_props N hN p.1 p.2 a b c
  | minus hprev ih =>
      rename_i d0
      intro s e h
      cases d0 with
      | none => cases h
      | some p =>
          obtain ⟨a, b, c⟩ := ih p.1 p.2 rfl
          rw [minusKey.eq_def] at h
          simp only at h
          injection h with h'
          rw [← h']
          exact (minusKeyStep_props N hN p.1 p.2 a b c).1
  | escape hprev ih => intro s e h; cases h

/-- Claim C1 fails as stated: with `N = 6` the full-range domain `[0, 5]`
is reachable (one wheel zoom from the unset domain), and a single `+`
keypress produces `[1/2, 9/2]`, whose width `4` violates
`end - start ≥ 5` (the source applies no minimum-width clamp on the
keyboard centered zoom). -/
theorem C1_counterexample :
    ReachableDomain 6 (some (0, 5)) ∧
    plusKey 6 (some (0, 5)) = some (1/2, 9/2) ∧
    ¬ (5 ≤ (9/2 : ℚ) - 1/2) := by
  refine ⟨?_, ?_, by norm_num⟩
  · have h : handleWheel 6 false (1/2) none = some (0, 5) := by
      norm_num [handleWheel, wheelStep, wheelStepWith]
    exact h ▸ ReachableDomain.wheel false (1/2) ReachableDomain.init
  · norm_num [plusKey, plusKeyStep]

/-- Claim C1 (amended): for `N ≥ 6`, every reachable domain satisfies
`0 ≤ start ≤ end ≤ N-1`, and every single pan/zoom operation preserves
those bounds; the wheel zoom moreover re-establishes `end - start ≥ 5`,
and the pans and the `-` zoom preserve `end - start ≥ 5`; the keyboard
`+`/`-` centered zooms guarantee only the bounds (the `+` zoom can
shrink the width below 5, see the counterexample). -/
theorem C1_viewport_clamping_amended
    (N : ℕ) (hN : 6 ≤ N) (s e : ℚ)
    (h0 : 0 ≤ s) (hse : s ≤ e) (heN : e ≤ (N : ℚ) - 1)
    (zoomOut : Bool) (center moveRatio : ℚ)
    (d : Option (ℚ × ℚ)) (hd : ReachableDomain N d) (s' e' : ℚ) (hd' : d = some (s', e')) :
    (domInBounds N (wheelStep N zoomOut center s e) ∧
      5 ≤ domWidth (wheelStep N zoomOut center s e)) ∧
    (domInBounds N (dragPanStep N moveRatio s e) ∧
      (5 ≤ e - s → 5 ≤ domWidth (dragPanStep N moveRatio s e))) ∧
    (domInBounds N (arrowLeftStep N s e) ∧
      (5 ≤ e - s → 5 ≤ domWidth (arrowLeftStep N s e))) ∧
    (domInBounds N (arrowRightStep N s e) ∧
      (5 ≤ e - s → 5 ≤ domWidth (arrowRightStep N s e))) ∧
    domInBounds N (plusKeyStep N s e) ∧
    (domInBounds N (minusKeyStep N s e) ∧
      (5 ≤ e - s → 5 ≤ domWidth (minusKeyStep N s e))) ∧
    domInBounds N (s', e') :=
  ⟨wheelStep_props N hN zoomOut center s e,
    dragPanStep_props N hN moveRatio s e h0 hse heN,
    arrowLeftStep_props N hN s e h0 hse heN,
    arrowRightStep_props N hN s e h0 hse heN,
    plusKeyStep_props N hN s e h0 hse heN,
    minusKeyStep_props N hN s e h0 hse heN,
    reachable_inBounds N hN hd s' e' hd'⟩

/-- Witness for the amended C1 at `N = 10`, domain `[0, 9]` (reachable by
one wheel zoom from the unset domain). -/
theorem C1_viewport_clamping_amended_witness :
    (domInBounds 10 (wheelStep 10 true 0 0 9) ∧
      5 ≤ domWidth (wheelStep 10 true 0 0 9)) ∧
    (domInBounds 10 (dragPanStep 10 (1/2) 0 9) ∧
      (5 ≤ (9 : ℚ) - 0 → 5 ≤ domWidth (dragPanStep 10 (1/2) 0 9))) ∧
    (domInBounds 10 (arrowLeftStep 10 0 9) ∧
      (5 ≤ (9 : ℚ) - 0 → 5 ≤ domWidth (arrowLeftStep 10 0 9))) ∧
    (domInBounds 10 (arrowRightStep 10 0 9) ∧
      (5 ≤ (9 : ℚ) - 0 → 5 ≤ domWidth (arrowRightStep 10 0 9))) ∧
    domInBounds 10 (plusKeyStep 10 0 9) ∧
    (domInBounds 10 (minusKeyStep 10 0 9) ∧
      (5 ≤ (9 : ℚ) - 0 → 5 ≤ domWidth (minusKeyStep 10 0 9))) ∧
    domInBounds 10 ((0 : ℚ), (9 : ℚ)) := by
  have hr : ReachableDomain 10 (some ((0 : ℚ), (9 : ℚ))) := by
    have h : handleWheel 10 true 0 none = some (0, 9) := by
      norm_num [handleWheel, wheelStep, wheelStepWith]
    exact h ▸ ReachableDomain.wheel true 0 ReachableDomain.init
  exact C1_viewport_clamping_amended 10 (by norm_num) 0 9 (by norm_num) (by norm_num)
    (by norm_num) true 0 (1/2) (some (0, 9)) hr 0 9 rfl

lemma wheelStepWith_eval (N : ℕ) (f c s e : ℚ)
    (h5 : 5 ≤ (e - s) * f) (hN : (e - s) * f ≤ (N : ℚ))
    (hns : 0 ≤ s + ((e - s) - (e - s) * f) * c)
    (hne : s + ((e - s) - (e - s) * f) * c + (e - s) * f < (N : ℚ) - 1) :
    wheelStepWith N f c s e
      = (s + ((e - s) - (e - s) * f) * c,
         s + ((e - s) - (e - s) * f) * c + (e - s) * f) := by
  simp only [wheelStepWith]
  rw [min_eq_right hN, max_eq_right h5, max_eq_right hns,
    min_eq_right (le_of_lt hne), if_neg (ne_of_lt hne)]

/-- Claim C8: away from the clamping boundaries (no bound saturates in
either step and both the zoomed and original widths lie within `[5, N]`),
a wheel zoom step by factor `f` followed by a wheel zoom step by factor
`1/f` at the same anchor ratio restores the original domain exactly (in
particular its width).  `wheelStepWith` is the source's wheel-zoom
formula with the factor abstracted; the source instantiates it with
`0.9` (zoom in) and `1.1` (zoom out). -/
theorem C8_zoom_roundtrip (N : ℕ) (f c s e : ℚ)
    (hf : 0 < f)
    (h5f : 5 ≤ (e - s) * f) (hfN : (e - s) * f ≤ (N : ℚ))
    (h5 : 5 ≤ e - s) (hrN : e - s ≤ (N : ℚ))
    (hs0 : 0 ≤ s) (heN : e < (N : ℚ) - 1)
    (hns : 0 ≤ s + ((e - s) - (e - s) * f) * c)
    (hne : s + ((e - s) - (e - s) * f) * c + (e - s) * f < (N : ℚ) - 1) :
    wheelStepWith N (1/f) c
        (wheelStepWith N f c s e).1 (wheelStepWith N f c s e).2 = (s, e) := by
  have hfne : f ≠ 0 := ne_of_gt hf
  have hinv : (e - s) * f * (1/f) = e - s := by field_simp
  rw [wheelStepWith_eval N f c s e h5f hfN hns hne]
  set X := s + ((e - s) - (e - s) * f) * c with hXdef
  have e1 : (X + (e - s) * f) - X = (e - s) * f := by ring
  have key : X + ((e - s) * f - (e - s)) * c = s := by rw [hXdef]; ring
  have hlast : s + (e - s) = e := by ring
  rw [wheelStepWith_eval N (1/f) c X (X + (e - s) * f)
    (by rw [e1, hinv]; exact h5)
    (by rw [e1, hinv]; exact hrN)
    (by rw [e1, hinv, key]; exact hs0)
    (by rw [e1, hinv, key]; linarith)]
  rw [e1, hinv, key, hlast]

/-- Witness for C8: `N = 200`, domain `[50, 150]`, zoom in by `0.9` then
out by `1/0.9` anchored at the middle. -/
theorem C8_zoom_roundtrip_witness :
    wheelStepWith 200 (1/(9/10)) (1/2)
        (wheelStepWith 200 (9/10) (1/2) 50 150).1
        (wheelStepWith 200 (9/10) (1/2) 50 150).2 = (50, 150) :=
  C8_zoom_roundtrip 200 (9/10) (1/2) 50 150 (by norm_num) (by norm_num) (by norm_num)
    (by norm_num) (by norm_num) (by norm_num) (by norm_num) (by norm_num) (by norm_num)

lemma getD_append_lt {α : Type} (l₁ l₂ : List α) (i : ℕ) (d : α) (h : i < l₁.length) :
    (l₁ ++ l₂).getD i d = l₁.getD i d := by
  simp [List.getD_eq_getElem?_getD, List.getElem?_append, h]

lemma getD_append_ge {α : Type} (l₁ l₂ : List α) (i : ℕ) (d : α) (h : l₁.length ≤ i) :
    (l₁ ++ l₂).getD i d = l₂.getD (i - l₁.length) d := by
  simp [List.getD_eq_getElem?_getD, List.getElem?_append_right h]

lemma getD_map_some (l : List ℚ) (i : ℕ) (h : i < l.length) :
    (l.map some).getD i none = some (l.getD i 0) := by
  simp [List.getD_eq_getElem?_getD, List.getElem?_map, List.getElem?_eq_getElem h]

lemma getD_drop {α : Type} (l : List α) (n i : ℕ) (d : α) :
    (l.drop n).getD i d = l.getD (n + i) d := by
  simp [List.getD_eq_getElem?_getD, List.getElem?_drop]

lemma abs_eq_lossOf (c : ℚ) (h : ¬ 0 < c) : |c| = lossOf c := by
  rcases lt_or_eq_of_le (le_of_not_lt h) with h' | h'
  · rw [lossOf, if_pos h', abs_of_neg h']
  · subst h'
    simp [lossOf]

lemma seed_foldl (l : List ℚ) :
    ∀ a b : ℚ,
      l.foldl (fun gl c => if 0 < c then (gl.1 + c, gl.2) else (gl.1, gl.2 + |c|)) (a, b)
        = (a + (l.map gainOf).sum, b + (l.map lossOf).sum) := by
  induction l with
  | nil => intro a b; simp
  | cons c cs ih =>
      intro a b
      by_cases h : 0 < c
      · simp only [List.foldl_cons, if_pos h, ih, List.map_cons, List.sum_cons]
        rw [gainOf, if_pos h, lossOf, if_neg (by linarith)]
        simp only [Prod.mk.injEq]
        constructor <;> ring
      · simp only [List.foldl_cons, if_neg h, ih, List.map_cons, List.sum_cons]
        rw [gainOf, if_neg h, abs_eq_lossOf c h]
        simp only [Prod.mk.injEq]
        constructor <;> ring

lemma rsiLoop_length (p : ℚ) : ∀ (cs : List ℚ) (a b : ℚ),
    (rsiLoop p a b cs).length = cs.length := by
  intro cs
  induction cs with
  | nil => intro a b; rfl
  | cons c cs ih => intro a b; simp [rsiLoop, ih]

lemma rsiLoop_getD (p : ℚ) :
    ∀ (cs : List ℚ) (a b : ℚ) (G L : ℕ → ℚ),
      G 0 = a → L 0 = b →
      (∀ k, G (k + 1) = (G k * (p - 1) + gainOf (cs.getD k 0)) / p) →
      (∀ k, L (k + 1) = (L k * (p - 1) + lossOf (cs.getD k 0)) / p) →
      ∀ t, t < cs.length →
        (rsiLoop p a b cs).getD t 0 = rsiOf (G (t + 1)) (L (t + 1)) := by
  intro cs
  induction cs with
  | nil => intro a b G L hG0 hL0 hG hL t ht; simp at ht
  | cons c cs ih =>
      intro a b G L hG0 hL0 hG hL t ht
      have hg1 : (a * (p - 1) + (if 0 < c then c else 0)) / p = G 1 := by
        rw [hG 0, hG0]
        simp [gainOf, List.getD_cons_zero]
      have hl1 : (b * (p - 1) + (if c < 0 then -c else 0)) / p = L 1 := by
        rw [hL 0, hL0]
        simp [lossOf, List.getD_cons_zero]
      cases t with
      | zero =>
          simp only [rsiLoop, List.getD_cons_zero]
          rw [hg1, hl1]
      | succ t =>
          simp only [rsiLoop, List.getD_cons_succ]
          exact ih _ _ (fun k => G (k + 1)) (fun k => L (k + 1))
            hg1.symm hl1.symm
            (fun k => by simp only []; rw [hG (k + 1)]; simp [List.getD_cons_succ])
            (fun k => by simp only []; rw [hL (k + 1)]; simp [List.getD_cons_succ])
            t (by simpa using ht)

lemma priceChanges_length (data : List StockData) :
    (priceChanges data).length = data.length - 1 := by
  simp [priceChanges]

lemma getD_replicate {α : Type} (n i : ℕ) (a d : α) (h : i < n) :
    (List.replicate n a).getD i d = a := by
  simp [List.getD_eq_getElem?_getD, List.getElem?_replicate, h]

/-- Claim C3: `computeRSI` returns an all-null full-length array when
`bars.length ≤ p`; otherwise indices `0..p-1` are null and for `j ≥ 0`
the entry at `p + j` is `100 - 100/(1 + RS)` where
`RS = avgGain/avgLoss'`, `avgLoss' = 0.001` exactly when `avgLoss = 0`,
and the averages are seeded as simple means of gains/losses over the
first `p` changes and then Wilder-smoothed
(`avg = (avg*(p-1) + current)/p`). -/
theorem C3_rsi_correct (data : List StockData) (p : ℕ) (hp : 1 ≤ p) :
    (calculateRSI data p).length = data.length ∧
    (data.length ≤ p → calculateRSI data p = List.replicate data.length none) ∧
    (p < data.length →
      (∀ i, i < p → (calculateRSI data p).getD i none = none) ∧
      (∀ j, p + j < data.length →
        (calculateRSI data p).getD (p + j) none
          = some (100 - 100 / (1 +
              avgGainAt (priceChanges data) p j
                / (if avgLossAt (priceChanges data) p j = 0 then 1/1000
                   else avgLossAt (priceChanges data) p j))))) := by
  have hmapnull : data.map (fun _ => (none : Option ℚ)) = List.replicate data.length none := by
    rw [List.eq_replicate_iff]
    refine ⟨by simp, ?_⟩
    intro b hb
    rw [List.mem_map] at hb
    obtain ⟨a, _, rfl⟩ := hb
    rfl
  by_cases hnp : data.length ≤ p
  · rw [calculateRSI, if_pos hnp]
    refine ⟨by simp, fun _ => hmapnull, fun h => absurd h (by omega)⟩
  · have hpn : p < data.length := by omega
    have hch : (priceChanges data).length = data.length - 1 := priceChanges_length data
    have hlen : (calculateRSI data p).length = data.length := by
      rw [calculateRSI, if_neg hnp]
      simp [rsiLoop_length, hch]
      omega
    refine ⟨hlen, fun h => absurd h hnp, fun _ => ⟨?_, ?_⟩⟩
    · intro i hi
      rw [calculateRSI, if_neg hnp, List.append_assoc,
        getD_append_lt _ _ _ _ (by simp; omega), getD_replicate _ _ _ _ hi]
    · intro j hj
      have hseed := seed_foldl ((priceChanges data).take p) 0 0
      have hG0 : avgGainAt (priceChanges data) p 0
          = (seedSums p (priceChanges data)).1 / (p : ℚ) := by
        rw [avgGainAt, seedSums, hseed]
        norm_num
      have hL0 : avgLossAt (priceChanges data) p 0
          = (seedSums p (priceChanges data)).2 / (p : ℚ) := by
        rw [avgLossAt, seedSums, hseed]
        norm_num
      have hGrec : ∀ k, avgGainAt (priceChanges data) p (k + 1)
          = (avgGainAt (priceChanges data) p k * ((p : ℚ) - 1)
              + gainOf (((priceChanges data).drop p).getD k 0)) / (p : ℚ) := by
        intro k
        rw [getD_drop]
        rfl
      have hLrec : ∀ k, avgLossAt (priceChanges data) p (k + 1)
          = (avgLossAt (priceChanges data) p k * ((p : ℚ) - 1)
              + lossOf (((priceChanges data).drop p).getD k 0)) / (p : ℚ) := by
        intro k
        rw [getD_drop]
        rfl
      rw [calculateRSI, if_neg hnp]
      cases j with
      | zero =>
          rw [getD_append_lt _ _ _ _
              (by simp only [List.length_append, List.length_replicate,
                List.length_cons, List.length_nil]; omega),
            getD_append_ge _ _ _ _ (by simp only [List.length_replicate]; omega)]
          simp only [List.length_replicate, Nat.add_zero, Nat.sub_self, List.getD_cons_zero]
          rw [rsiOf, hG0, hL0]
      | succ t =>
          rw [getD_append_ge _ _ _ _
            (by simp only [List.length_append, List.length_replicate,
              List.length_cons, List.length_nil]; omega)]
          have hidx : p + (t + 1) - (List.replicate p (none : Option ℚ)
              ++ [some (rsiOf ((seedSums p (priceChanges data)).1 / (p : ℚ))
                ((seedSums p (priceChanges data)).2 / (p : ℚ)))]).length = t := by
            simp only [List.length_append, List.length_replicate,
              List.length_cons, List.length_nil]
            omega
          rw [hidx]
          have htlen : t < (rsiLoop (p : ℚ)
              ((seedSums p (priceChanges data)).1 / (p : ℚ))
              ((seedSums p (priceChanges data)).2 / (p : ℚ))
              ((priceChanges data).drop p)).length := by
            rw [rsiLoop_length]
            simp [hch]
            omega
          rw [getD_map_some _ _ htlen]
          rw [rsiLoop_getD (p : ℚ) ((priceChanges data).drop p) _ _
            (avgGainAt (priceChanges data) p) (avgLossAt (priceChanges data) p)
            hG0 hL0 hGrec hLrec t (by rw [rsiLoop_length] at htlen; exact htlen)]
          rw [rsiOf]

/-- Witness for C3 at bars with closes `[1, 3, 2]` and period 1. -/
theorem C3_rsi_correct_witness :
    (calculateRSI (mkBars [1, 3, 2]) 1).length = (mkBars [1, 3, 2]).length ∧
    ((mkBars [1, 3, 2]).length ≤ 1 →
      calculateRSI (mkBars [1, 3, 2]) 1 = List.replicate (mkBars [1, 3, 2]).length none) ∧
    (1 < (mkBars [1, 3, 2]).length →
      (∀ i, i < 1 → (calculateRSI (mkBars [1, 3, 2]) 1).getD i none = none) ∧
      (∀ j, 1 + j < (mkBars [1, 3, 2]).length →
        (calculateRSI (mkBars [1, 3, 2]) 1).getD (1 + j) none
          = some (100 - 100 / (1 +
              avgGainAt (priceChanges (mkBars [1, 3, 2])) 1 j
                / (if avgLossAt (priceChanges (mkBars [1, 3, 2])) 1 j = 0 then 1/1000
                   else avgLossAt (priceChanges (mkBars [1, 3, 2])) 1 j))))) :=
  C3_rsi_correct (mkBars [1, 3, 2]) 1 (by norm_num)

lemma rsiOf_bounds (a b : ℚ) (ha : 0 ≤ a) (hb : 0 ≤ b) :
    0 ≤ rsiOf a b ∧ rsiOf a b ≤ 100 := by
  rw [rsiOf]
  set denom := if b = 0 then (1/1000 : ℚ) else b with hdenom
  have hd : 0 < denom := by
    rw [hdenom]
    split_ifs with h
    · norm_num
    · exact lt_of_le_of_ne hb (Ne.symm h)
  have hrs : 0 ≤ a / denom := div_nonneg ha (le_of_lt hd)
  have h1 : (0 : ℚ) < 1 + a / denom := by linarith
  have h2 : 100 / (1 + a / denom) ≤ 100 := by
    rw [div_le_iff₀ h1]
    nlinarith
  have h3 : 0 < 100 / (1 + a / denom) := by positivity
  constructor <;> linarith

lemma rsiLoop_mem_bounds (p : ℚ) (hp : 1 ≤ p) :
    ∀ (cs : List ℚ) (a b : ℚ), 0 ≤ a → 0 ≤ b →
      ∀ x ∈ rsiLoop p a b cs, 0 ≤ x ∧ x ≤ 100 := by
  intro cs
  induction cs with
  | nil => intro a b _ _ x hx; simp [rsiLoop] at hx
  | cons c cs ih =>
      intro a b ha hb x hx
      have hg : 0 ≤ (if 0 < c then c else 0) := by split_ifs with h; exact le_of_lt h; rfl
      have hl : 0 ≤ (if c < 0 then -c else 0) := by
        split_ifs with h
        · linarith
        · rfl
      have ha' : 0 ≤ (a * (p - 1) + (if 0 < c then c else 0)) / p := by
        apply div_nonneg _ (by linarith)
        have : 0 ≤ a * (p - 1) := mul_nonneg ha (by linarith)
        linarith
      have hb' : 0 ≤ (b * (p - 1) + (if c < 0 then -c else 0)) / p := by
        apply div_nonneg _ (by linarith)
        have : 0 ≤ b * (p - 1) := mul_nonneg hb (by linarith)
        linarith
      simp only [rsiLoop, List.mem_cons] at hx
      rcases hx with rfl | hx
      · exact rsiOf_bounds _ _ ha' hb'
      · exact ih _ _ ha' hb' x hx

/-- Claim C7: every non-null entry of `computeRSI` lies in `[0, 100]`. -/
theorem C7_rsi_in_range (data : List StockData) (p : ℕ) (hp : 1 ≤ p) :
    ∀ x : ℚ, some x ∈ calculateRSI data p → 0 ≤ x ∧ x ≤ 100 := by
  intro x hx
  rw [calculateRSI] at hx
  split_ifs at hx with hnp
  · rw [List.mem_map] at hx
    obtain ⟨a, _, h⟩ := hx
    exact Option.noConfusion h
  · have hp' : (1 : ℚ) ≤ (p : ℚ) := by exact_mod_cast hp
    have hgain : 0 ≤ (seedSums p (priceChanges data)).1 / (p : ℚ) := by
      rw [seedSums, seed_foldl]
      apply div_nonneg _ (by linarith)
      simp only [zero_add]
      apply List.sum_nonneg
      intro y hy
      rw [List.mem_map] at hy
      obtain ⟨c, _, rfl⟩ := hy
      rw [gainOf]
      split_ifs with h
      · exact le_of_lt h
      · exact le_refl 0
    have hloss : 0 ≤ (seedSums p (priceChanges data)).2 / (p : ℚ) := by
      rw [seedSums, seed_foldl]
      apply div_nonneg _ (by linarith)
      simp only [zero_add]
      apply List.sum_nonneg
      intro y hy
      rw [List.mem_map] at hy
      obtain ⟨c, _, rfl⟩ := hy
      rw [lossOf]
      split_ifs with h
      · linarith
      · exact le_refl 0
    rw [List.append_assoc, List.mem_append] at hx
    rcases hx with hx | hx
    · exact absurd (List.eq_of_mem_replicate hx) (by simp)
    · rw [List.mem_append] at hx
      rcases hx with hx | hx
      · rw [List.mem_singleton] at hx
        injection hx.symm with h
        rw [← h]
        exact rsiOf_bounds _ _ hgain hloss
      · rw [List.mem_map] at hx
        obtain ⟨y, hy, hxy⟩ := hx
        injection hxy with h
        rw [← h]
        exact rsiLoop_mem_bounds (p : ℚ) hp' _ _ _ hgain hloss y hy

/-- Witness for C7: the RSI value `0` produced at index 2 for closes
`[1, 3, 2]` with period 1 lies in `[0, 100]`. -/
theorem C7_rsi_in_range_witness :
    0 ≤ (0 : ℚ) ∧ (0 : ℚ) ≤ 100 :=
  C7_rsi_in_range (mkBars [1, 3, 2]) 1 (by norm_num) 0
    (by norm_num [calculateRSI, priceChanges, mkBars, seedSums, rsiLoop, rsiOf, gainOf, lossOf])

lemma emaLoop_length (m : ℚ) : ∀ (l : List ℚ) (prev : ℚ),
    (emaLoop m prev l).length = l.length := by
  intro l
  induction l with
  | nil => intro prev; rfl
  | cons x xs ih => intro prev; simp [emaLoop, ih]

lemma emaLoop_getD (m : ℚ) :
    ∀ (l : List ℚ) (prev : ℚ) (g : ℕ → ℚ),
      g 0 = prev →
      (∀ k, g (k + 1) = (l.getD k 0 - g k) * m + g k) →
      ∀ j, j < l.length → (emaLoop m prev l).getD j 0 = g (j + 1) := by
  intro l
  induction l with
  | nil => intro prev g hg0 hg j hj; simp at hj
  | cons x xs ih =>
      intro prev g hg0 hg j hj
      have hnxt : (x - prev) * m + prev = g 1 := by
        rw [hg 0, hg0]
        simp [List.getD_cons_zero]
      cases j with
      | zero =>
          simp only [emaLoop, List.getD_cons_zero]
          exact hnxt
      | succ j =>
          simp only [emaLoop, List.getD_cons_succ]
          exact ih _ (fun k => g (k + 1)) hnxt.symm
            (fun k => by simp only []; rw [hg (k + 1)]; simp [List.getD_cons_succ])
            j (by simpa using hj)

lemma calculateEMA_length (prices : List ℚ) (p : ℕ) (hp : 1 ≤ p)
    (hlen : p ≤ prices.length) :
    (calculateEMA prices p).length = prices.length := by
  simp [calculateEMA, emaLoop_length]
  omega

lemma calculateEMA_getD (prices : List ℚ) (p : ℕ) (hp : 1 ≤ p)
    (hlen : p ≤ prices.length) (k : ℕ) (hk : k < prices.length) :
    (calculateEMA prices p).getD k none
      = if k + 1 < p then none else some (emaVal prices p (k + 1 - p)) := by
  rw [calculateEMA]
  simp only [if_pos hlen]
  by_cases h1 : k + 1 < p
  · rw [if_pos h1, getD_append_lt _ _ _ _
      (by simp only [List.length_append, List.length_replicate, List.length_cons,
        List.length_nil]; omega),
      getD_append_lt _ _ _ _ (by simp only [List.length_replicate]; omega),
      getD_replicate _ _ _ _ (by omega)]
  · rw [if_neg h1]
    by_cases h2 : k + 1 = p
    · rw [getD_append_lt _ _ _ _
        (by simp only [List.length_append, List.length_replicate, List.length_cons,
          List.length_nil]; omega),
        getD_append_ge _ _ _ _ (by simp only [List.length_replicate]; omega)]
      simp only [List.length_replicate]
      have hk0 : k - (p - 1) = 0 := by omega
      have hk1 : k + 1 - p = 0 := by omega
      rw [hk0, hk1, List.getD_cons_zero]
      rfl
    · have hkp : p ≤ k := by omega
      rw [getD_append_ge _ _ _ _
        (by simp only [List.length_append, List.length_replicate, List.length_cons,
          List.length_nil]; omega)]
      have hidx : k - (List.replicate (p - 1) (none : Option ℚ)
          ++ [some ((prices.take p).sum / (p : ℚ))]).length = k - p := by
        simp only [List.length_append, List.length_replicate, List.length_cons,
          List.length_nil]
        omega
      rw [hidx]
      have hkp' : k - p < (prices.drop p).length := by
        simp only [List.length_drop]
        omega
      rw [getD_map_some _ _ (by rw [emaLoop_length]; exact hkp')]
      simp only [Option.getD_some]
      rw [emaLoop_getD _ _ _ (emaVal prices p)
        (show emaVal prices p 0 = (prices.take p).sum / (p : ℚ) from rfl)
        (fun j => by rw [getD_drop]; rfl) (k - p) hkp']
      have : k - p + 1 = k + 1 - p := by omega
      rw [this]

lemma alignSignal_length (sig : List (Option ℚ)) (p : ℕ) :
    ∀ (l : List (Option ℚ)) (j : ℕ), (alignSignal sig p l j).length = l.length := by
  intro l
  induction l with
  | nil => intro j; rfl
  | cons x xs ih =>
      intro j
      cases x with
      | none => simp [alignSignal, ih]
      | some v => simp [alignSignal, ih]

lemma validCountUpTo_zero (l : List (Option ℚ)) : validCountUpTo l 0 = 0 := rfl

lemma validCountUpTo_cons_none (xs : List (Option ℚ)) (i : ℕ) :
    validCountUpTo (none :: xs) (i + 1) = validCountUpTo xs i := by
  simp [validCountUpTo, List.take_cons, List.filterMap_cons]

lemma validCountUpTo_cons_some (v : ℚ) (xs : List (Option ℚ)) (i : ℕ) :
    validCountUpTo (some v :: xs) (i + 1) = validCountUpTo xs i + 1 := by
  simp [validCountUpTo, List.take_cons, List.filterMap_cons]

lemma alignSignal_getD_none (sig : List (Option ℚ)) (p : ℕ) :
    ∀ (l : List (Option ℚ)) (j i : ℕ), i < l.length → l.getD i none = none →
      (alignSignal sig p l j).getD i none = none := by
  intro l
  induction l with
  | nil => intro j i hi _; simp at hi
  | cons x xs ih =>
      intro j i hi hnone
      cases x with
      | none =>
          cases i with
          | zero => simp [alignSignal, List.getD_cons_zero]
          | succ i =>
              simp only [alignSignal, List.getD_cons_succ]
              exact ih j i (by simpa using hi) (by simpa using hnone)
      | some v =>
          cases i with
          | zero => simp [List.getD_cons_zero] at hnone
          | succ i =>
              simp only [alignSignal, List.getD_cons_succ]
              exact ih (j + 1) i (by simpa using hi) (by simpa using hnone)

lemma alignSignal_getD_some (sig : List (Option ℚ)) (p : ℕ) :
    ∀ (l : List (Option ℚ)) (j i : ℕ), i < l.length → l.getD i none ≠ none →
      (alignSignal sig p l j).getD i none
        = if j + validCountUpTo l i + 1 < p then none
          else sig.getD (j + validCountUpTo l i - (p - 1)) none := by
  intro l
  induction l with
  | nil => intro j i hi _; simp at hi
  | cons x xs ih =>
      intro j i hi hsome
      cases x with
      | none =>
          cases i with
          | zero => simp [List.getD_cons_zero] at hsome
          | succ i =>
              simp only [alignSignal, List.getD_cons_succ, validCountUpTo_cons_none]
              exact ih j i (by simpa using hi) (by simpa using hsome)
      | some v =>
          cases i with
          | zero =>
              simp only [alignSignal, List.getD_cons_zero, validCountUpTo_zero,
                Nat.add_zero]
          | succ i =>
              simp only [alignSignal, List.getD_cons_succ, validCountUpTo_cons_some]
              rw [ih (j + 1) i (by simpa using hi) (by simpa using hsome)]
              have h1 : j + (validCountUpTo xs i + 1) = j + 1 + validCountUpTo xs i := by
                omega
              rw [h1]

lemma validCount_lt_total (l : List (Option ℚ)) (i : ℕ) (hi : i < l.length)
    (h : l.getD i none ≠ none) :
    validCountUpTo l i < (l.filterMap id).length := by
  obtain ⟨v, hv⟩ : ∃ v, l[i] = some v := by
    rw [List.getD_eq_getElem?_getD, List.getElem?_eq_getElem hi] at h
    cases hval : l[i] with
    | none => rw [hval] at h; simp at h
    | some v => exact ⟨v, rfl⟩
  have hsplit : l.filterMap id = (l.take i).filterMap id ++ (l.drop i).filterMap id := by
    rw [← List.filterMap_append, List.take_append_drop]
  have hdrop : l.drop i = some v :: l.drop (i + 1) := by
    rw [List.drop_eq_getElem_cons hi, hv]
  rw [validCountUpTo, hsplit, List.length_append, hdrop, List.filterMap_cons]
  simp

lemma calculateMACD_signalLine (data : List StockData) (f s p : ℕ) :
    (calculateMACD data f s p).signalLine
      = alignSignal (calculateEMA ((calculateMACD data f s p).macdLine.filterMap id) p) p
          (calculateMACD data f s p).macdLine 0 := rfl

lemma calculateMACD_histogram_eq (data : List StockData) (f s p : ℕ) :
    (calculateMACD data f s p).histogram
      = (List.range (calculateMACD data f s p).macdLine.length).map fun i =>
          match (calculateMACD data f s p).macdLine.getD i none,
                (calculateMACD data f s p).signalLine.getD i none with
          | some a, some b => some (a - b)
          | _, _ => none := rfl

lemma calculateMACD_macdLine_length (data : List StockData) (f s p : ℕ) :
    (calculateMACD data f s p).macdLine.length = data.length := by
  simp [calculateMACD]

/-- Claim C2 (amended): writing `ord i` for the number of non-null
macdLine entries strictly before `i`, the signal line is null at every
index where the macd line is null, and at a valid macd index `i` it is
null exactly while `ord i < 2·(signalPeriod - 1)`; from
`ord i ≥ 2·(signalPeriod - 1)` on it equals the seeded-EMA value of the
non-null macd suffix at position `ord i - 2·(signalPeriod - 1)` — i.e.
the signal EMA re-aligned with an extra lag of `signalPeriod - 1` valid
positions, not the claimed alignment after `signalPeriod - 1` valid
values.  The histogram is `macd - signal` where both are defined and
null otherwise, as claimed. -/
theorem C2_macd_signal_amended (data : List StockData) (f s p : ℕ) (hp : 1 ≤ p) :
    ((calculateMACD data f s p).signalLine.length = data.length) ∧
    (∀ i, i < data.length →
      (calculateMACD data f s p).macdLine.getD i none = none →
      (calculateMACD data f s p).signalLine.getD i none = none) ∧
    (∀ i, i < data.length →
      (calculateMACD data f s p).macdLine.getD i none ≠ none →
      ((validCountUpTo (calculateMACD data f s p).macdLine i < 2 * (p - 1) →
          (calculateMACD data f s p).signalLine.getD i none = none) ∧
       (2 * (p - 1) ≤ validCountUpTo (calculateMACD data f s p).macdLine i →
          (calculateMACD data f s p).signalLine.getD i none
            = some (emaVal ((calculateMACD data f s p).macdLine.filterMap id) p
                (validCountUpTo (calculateMACD data f s p).macdLine i - 2 * (p - 1)))))) ∧
    (∀ i, i < data.length →
      (calculateMACD data f s p).histogram.getD i none
        = match (calculateMACD data f s p).macdLine.getD i none,
                (calculateMACD data f s p).signalLine.getD i none with
          | some a, some b => some (a - b)
          | _, _ => none) := by
  have hmlen : (calculateMACD data f s p).macdLine.length = data.length :=
    calculateMACD_macdLine_length data f s p
  refine ⟨?_, ?_, ?_, ?_⟩
  · rw [calculateMACD_signalLine, alignSignal_length, hmlen]
  · intro i hi hnone
    rw [calculateMACD_signalLine]
    exact alignSignal_getD_none _ p _ 0 i (by omega) hnone
  · intro i hi hsome
    have hord := validCount_lt_total (calculateMACD data f s p).macdLine i
      (by omega) hsome
    rw [calculateMACD_signalLine,
      alignSignal_getD_some _ p _ 0 i (by omega) hsome]
    simp only [Nat.zero_add]
    constructor
    · intro hlt
      by_cases hsmall : validCountUpTo (calculateMACD data f s p).macdLine i + 1 < p
      · rw [if_pos hsmall]
      · rw [if_neg hsmall]
        have hpc : p ≤ ((calculateMACD data f s p).macdLine.filterMap id).length := by
          omega
        rw [calculateEMA_getD _ p hp hpc _ (by omega)]
        rw [if_pos (by omega)]
    · intro hge
      rw [if_neg (by omega)]
      have hpc : p ≤ ((calculateMACD data f s p).macdLine.filterMap id).length := by
        omega
      rw [calculateEMA_getD _ p hp hpc _ (by omega)]
      rw [if_neg (by omega)]
      have hidx : validCountUpTo (calculateMACD data f s p).macdLine i - (p - 1) + 1 - p
          = validCountUpTo (calculateMACD data f s p).macdLine i - 2 * (p - 1) := by
        omega
      rw [hidx]
  · intro i hi
    rw [calculateMACD_histogram_eq, getD_range_map _ _ _ _ (by omega)]

/-- Claim C2 fails as stated: for closes `[1, 2, 3]` with
`fast = slow = 1`, `signal = 2`, every macd entry is valid, so at index 1
two valid macd values (≥ signalPeriod - 1 = 1) have accumulated, yet
`signalLine[1]` is null (the code stays null until
`2·(signalPeriod - 1)` valid values). -/
theorem C2_counterexample :
    (calculateMACD (mkBars [1, 2, 3]) 1 1 2).macdLine.getD 1 none ≠ none ∧
    validCountUpTo (calculateMACD (mkBars [1, 2, 3]) 1 1 2).macdLine 2 = 2 ∧
    2 - 1 ≤ validCountUpTo (calculateMACD (mkBars [1, 2, 3]) 1 1 2).macdLine 2 ∧
    (calculateMACD (mkBars [1, 2, 3]) 1 1 2).signalLine.getD 1 none = none := by
  have hmacd : (calculateMACD (mkBars [1, 2, 3]) 1 1 2).macdLine
      = [some 0, some 0, some 0] := by
    norm_num [calculateMACD, calculateEMA, emaLoop, mkBars, List.range_succ]
  have hsig : (calculateMACD (mkBars [1, 2, 3]) 1 1 2).signalLine
      = [none, none, some 0] := by
    rw [calculateMACD_signalLine, hmacd]
    norm_num [calculateEMA, emaLoop, alignSignal, List.filterMap_cons]
  refine ⟨by rw [hmacd]; simp, by rw [hmacd]; rfl, by rw [hmacd]; simp [validCountUpTo], by rw [hsig]; rfl⟩

/-- Witness for the amended C2 at closes `[1, 2, 3]`, periods `1/1/2`. -/
theorem C2_macd_signal_amended_witness :
    ((calculateMACD (mkBars [1, 2, 3]) 1 1 2).signalLine.length = (mkBars [1, 2, 3]).length) ∧
    (∀ i, i < (mkBars [1, 2, 3]).length →
      (calculateMACD (mkBars [1, 2, 3]) 1 1 2).macdLine.getD i none = none →
      (calculateMACD (mkBars [1, 2, 3]) 1 1 2).signalLine.getD i none = none) ∧
    (∀ i, i < (mkBars [1, 2, 3]).length →
      (calculateMACD (mkBars [1, 2, 3]) 1 1 2).macdLine.getD i none ≠ none →
      ((validCountUpTo (calculateMACD (mkBars [1, 2, 3]) 1 1 2).macdLine i < 2 * (2 - 1) →
          (calculateMACD (mkBars [1, 2, 3]) 1 1 2).signalLine.getD i none = none) ∧
       (2 * (2 - 1) ≤ validCountUpTo (calculateMACD (mkBars [1, 2, 3]) 1 1 2).macdLine i →
          (calculateMACD (mkBars [1, 2, 3]) 1 1 2).signalLine.getD i none
            = some (emaVal ((calculateMACD (mkBars [1, 2, 3]) 1 1 2).macdLine.filterMap id) 2
                (validCountUpTo (calculateMACD (mkBars [1, 2, 3]) 1 1 2).macdLine i
                  - 2 * (2 - 1)))))) ∧
    (∀ i, i < (mkBars [1, 2, 3]).length →
      (calculateMACD (mkBars [1, 2, 3]) 1 1 2).histogram.getD i none
        = match (calculateMACD (mkBars [1, 2, 3]) 1 1 2).macdLine.getD i none,
                (calculateMACD (mkBars [1, 2, 3]) 1 1 2).signalLine.getD i none with
          | some a, some b => some (a - b)
          | _, _ => none) :=
  C2_macd_signal_amended (mkBars [1, 2, 3]) 1 1 2 (by norm_num)

lemma horiz_step_preserves (N : ℕ) (ev : ChartEvent) (st : ChartState)
    (hev : ev.isPointer = true)
    (hmode : st.drawingMode = some LineType.horizontalline)
    (hinv : ∀ en, st.drawingEnd = some en →
      ∃ sp, st.drawingStart = some sp ∧ en.price = sp.price) :
    (step N ev st).drawingMode = some LineType.horizontalline ∧
    (∀ en, (step N ev st).drawingEnd = some en →
      ∃ sp, (step N ev st).drawingStart = some sp ∧ en.price = sp.price) ∧
    (∀ l ∈ (step N ev st).drawingLines,
      l ∈ st.drawingLines ∨ (l.type = LineType.horizontalline → l.startPrice = l.endPrice)) := by
  cases ev with
  | wheel zoomOut center => simp [ChartEvent.isPointer] at hev
  | key k => simp [ChartEvent.isPointer] at hev
  | mouseDown cx cy rl rt rw rh =>
      have hstep : step N (ChartEvent.mouseDown cx cy rl rt rw rh) st
          = { st with
              drawingStart := some ⟨(dataPoint N st.xAxisDomain (cx - rl) (cy - rt) rw rh).1,
                (dataPoint N st.xAxisDomain (cx - rl) (cy - rt) rw rh).2⟩,
              drawingEnd := none } := by
        simp only [step, hmode]
      rw [hstep]
      refine ⟨hmode, ?_, fun l hl => Or.inl hl⟩
      intro en hen
      simp at hen
  | mouseMove cx cy rl rt rw rh =>
      cases hds : st.drawingStart with
      | some ds =>
          have hstep : step N (ChartEvent.mouseMove cx cy rl rt rw rh) st
              = { st with
                  drawingEnd := some ⟨(dataPoint N st.xAxisDomain (cx - rl) (cy - rt) rw rh).1,
                    ds.price⟩ } := by
            simp only [step, hmode, hds, eq_self_iff_true, if_true]
          rw [hstep]
          refine ⟨hmode, ?_, fun l hl => Or.inl hl⟩
          intro en hen
          simp only [Option.some.injEq] at hen
          exact ⟨ds, hds, by rw [← hen]⟩
      | none =>
          rcases hdr : st.isDragging with _ | _ <;>
            rcases hdx : st.dragStartX with _ | dx <;>
            rcases hax : st.xAxisDomain with _ | d
          case true.some.some =>
            have hstep : step N (ChartEvent.mouseMove cx cy rl rt rw rh) st
                = { st with
                    xAxisDomain := some (dragPanStep N
                      ((dx - cx) / (if rw = 0 then 1 else rw)) d.1 d.2),
                    dragStartX := some cx } := by
              simp only [step, hmode, hds, hdr, hdx, hax]
            rw [hstep]
            exact ⟨hmode, fun en hen => hinv en hen, fun l hl => Or.inl hl⟩
          all_goals
            have hstep : step N (ChartEvent.mouseMove cx cy rl rt rw rh) st = st := by
              simp only [step, hmode, hds, hdr, hdx, hax]
            rw [hstep]
            exact ⟨hmode, fun en hen => hinv en hen, fun l hl => Or.inl hl⟩
  | mouseUp newId =>
      cases hds : st.drawingStart with
      | none =>
          have hstep : step N (ChartEvent.mouseUp newId) st
              = { st with isDragging := false, dragStartX := none } := by
            simp only [step, hmode, hds]
          rw [hstep]
          exact ⟨hmode, fun en hen => hinv en hen, fun l hl => Or.inl hl⟩
      | some ds =>
          cases hde : st.drawingEnd with
          | none =>
              have hstep : step N (ChartEvent.mouseUp newId) st
                  = { st with isDragging := false, dragStartX := none } := by
                simp only [step, hmode, hds, hde]
              rw [hstep]
              exact ⟨hmode, fun en hen => hinv en hen, fun l hl => Or.inl hl⟩
          | some de =>
              have hstep : step N (ChartEvent.mouseUp newId) st
                  = { st with
                      drawingLines := st.drawingLines ++
                        [{ id := newId, type := LineType.horizontalline,
                           startIndex := ds.index, startPrice := ds.price,
                           endIndex := de.index, endPrice := de.price,
                           color := lineColors.getD
                             (st.drawingLines.length % lineColors.length) "" }],
                      drawingStart := none, drawingEnd := none } := by
                simp only [step, hmode, hds, hde]
              rw [hstep]
              refine ⟨hmode, ?_, ?_⟩
              · intro en hen
                simp at hen
              · intro l hl
                simp only [List.mem_append, List.mem_singleton] at hl
                rcases hl with hl | rfl
                · exact Or.inl hl
                · right
                  intro _
                  obtain ⟨sp, hsp, hpr⟩ := hinv de hde
                  rw [hds] at hsp
                  injection hsp with hsp'
                  simp only []
                  rw [hpr, hsp']

lemma horiz_run_preserves (N : ℕ) :
    ∀ (evs : List ChartEvent) (st : ChartState),
      st.drawingMode = some LineType.horizontalline →
      (∀ en, st.drawingEnd = some en →
        ∃ sp, st.drawingStart = some sp ∧ en.price = sp.price) →
      (∀ ev ∈ evs, ev.isPointer = true) →
      (∀ l ∈ (runEvents N evs st).drawingLines,
        l ∈ st.drawingLines ∨ (l.type = LineType.horizontalline → l.startPrice = l.endPrice)) := by
  intro evs
  induction evs with
  | nil => intro st _ _ _ l hl; exact Or.inl hl
  | cons ev evs ih =>
      intro st hmode hinv hptr l hl
      obtain ⟨h1, h2, h3⟩ := horiz_step_preserves N ev st
        (hptr ev (List.mem_cons_self ev evs)) hmode hinv
      have hrun : runEvents N (ev :: evs) st = runEvents N evs (step N ev st) := rfl
      rw [hrun] at hl
      rcases ih (step N ev st) h1 h2 (fun e he => hptr e (List.mem_cons_of_mem ev he)) l hl
        with hmem | hgood
      · exact h3 l hmem
      · exact Or.inr hgood

/-- Claim C9 (amended): starting from any state in which the horizontal
drawing mode is active and no provisional end point is pending, any
sequence of pointer events (pointerDown/Move/Up) only commits lines that
are horizontal with `start.price = end.price`; every line of the
resulting collection is either an original line or satisfies this.
(Without the no-pending-end proviso the property fails: a provisional
end captured in trendline mode can be committed as a `horizontal` line
with differing prices after a mid-gesture mode switch, see the
counterexample.) -/
theorem C9_horizontal_price_amended (N : ℕ) (st : ChartState) (evs : List ChartEvent)
    (hmode : st.drawingMode = some LineType.horizontalline)
    (hend : st.drawingEnd = none)
    (hptr : ∀ ev ∈ evs, ev.isPointer = true) :
    ∀ l ∈ (runEvents N evs st).drawingLines,
      l ∈ st.drawingLines ∨ (l.type = LineType.horizontalline → l.startPrice = l.endPrice) :=
  horiz_run_preserves N evs st hmode
    (fun en hen => absurd (hend ▸ hen) (by simp)) hptr

/-- Witness for the amended C9: the line committed by a full down/move/up
gesture in horizontal mode from a clean state satisfies the invariant. -/
theorem C9_horizontal_price_amended_witness :
    lineC9 ∈ stC9.drawingLines ∨
      (lineC9.type = LineType.horizontalline → lineC9.startPrice = lineC9.endPrice) := by
  have hdp1 : dataPoint 100 initialState.xAxisDomain (10 - 0) (900 - 0) 99 1000 = (10, 100) := by
    norm_num [dataPoint, initialState]
  have hdp2 : dataPoint 100 initialState.xAxisDomain (20 - 0) (800 - 0) 99 1000 = (20, 200) := by
    norm_num [dataPoint, initialState]
  have h2 : step 100 (ChartEvent.mouseDown 10 900 0 0 99 1000) stC9 = { stC9 with drawingStart := some ⟨10, 100⟩, drawingEnd := none } := by
    simp only [step, stC9, hdp1]
  have h3 : step 100 (ChartEvent.mouseMove 20 800 0 0 99 1000) { stC9 with drawingStart := some ⟨10, 100⟩, drawingEnd := none } = { stC9 with drawingStart := some ⟨10, 100⟩, drawingEnd := some ⟨20, 100⟩ } := by
    simp only [step, stC9, hdp2, eq_self_iff_true, if_true]
  have h4 : step 100 (ChartEvent.mouseUp "W") { stC9 with drawingStart := some ⟨10, 100⟩, drawingEnd := some ⟨20, 100⟩ } = { stC9 with drawingLines := [lineC9], drawingStart := none, drawingEnd := none } := rfl
  have hmem : lineC9 ∈ (runEvents 100 [ChartEvent.mouseDown 10 900 0 0 99 1000,
      ChartEvent.mouseMove 20 800 0 0 99 1000,
      ChartEvent.mouseUp "W"] stC9).drawingLines := by
    show lineC9 ∈ (step 100 (ChartEvent.mouseUp "W") (step 100 (ChartEvent.mouseMove 20 800 0 0 99 1000) (step 100 (ChartEvent.mouseDown 10 900 0 0 99 1000) stC9))).drawingLines
    rw [h2, h3, h4]
    exact List.mem_singleton_self _
  exact C9_horizontal_price_amended 100 stC9 [ChartEvent.mouseDown 10 900 0 0 99 1000,
    ChartEvent.mouseMove 20 800 0 0 99 1000, ChartEvent.mouseUp "W"] rfl rfl
    (by intro ev hev; fin_cases hev <;> rfl) lineC9 hmem

/-- Claim C9 fails as stated over the full event alphabet: begin a
trendline gesture (down at price 100, move to price 200), switch to
horizontal mode mid-gesture with the `h` key, then release: the commit
uses the current mode, producing a `horizontal` line whose start and end
prices differ. -/
theorem C9_counterexample :
    ∃ l ∈ (runEvents 100 [ChartEvent.key ChartKey.t,
        ChartEvent.mouseDown 10 900 0 0 99 1000,
        ChartEvent.mouseMove 20 800 0 0 99 1000,
        ChartEvent.key ChartKey.h,
        ChartEvent.mouseUp "L1"] initialState).drawingLines,
      l.type = LineType.horizontalline ∧ l.startPrice ≠ l.endPrice := by
  have hrun : (runEvents 100 [ChartEvent.key ChartKey.t,
      ChartEvent.mouseDown 10 900 0 0 99 1000,
      ChartEvent.mouseMove 20 800 0 0 99 1000,
      ChartEvent.key ChartKey.h,
      ChartEvent.mouseUp "L1"] initialState).drawingLines
      = [{ id := "L1", type := LineType.horizontalline, startIndex := 10, startPrice := 100,
           endIndex := 20, endPrice := 200, color := "#FF5722" }] := by
    have h1 : step 100 (ChartEvent.key ChartKey.t) initialState = { initialState with drawingMode := some LineType.trendline } := rfl
    have hdp1 : dataPoint 100 initialState.xAxisDomain (10 - 0) (900 - 0) 99 1000 = (10, 100) := by
      norm_num [dataPoint, initialState]
    have h2 : step 100 (ChartEvent.mouseDown 10 900 0 0 99 1000) { initialState with drawingMode := some LineType.trendline } = { initialState with drawingMode := some LineType.trendline, drawingStart := some ⟨10, 100⟩, drawingEnd := none } := by
      simp only [step, hdp1]
    have hdp2 : dataPoint 100 initialState.xAxisDomain (20 - 0) (800 - 0) 99 1000 = (20, 200) := by
      norm_num [dataPoint, initialState]
    have h3 : step 100 (ChartEvent.mouseMove 20 800 0 0 99 1000) { initialState with drawingMode := some LineType.trendline, drawingStart := some ⟨10, 100⟩, drawingEnd := none } = { initialState with drawingMode := some LineType.trendline, drawingStart := some ⟨10, 100⟩, drawingEnd := some ⟨20, 200⟩ } := by
      simp only [step, hdp2]
      rw [if_neg (by decide : LineType.trendline ≠ LineType.horizontalline)]
    have h4 : step 100 (ChartEvent.key ChartKey.h) { initialState with drawingMode := some LineType.trendline, drawingStart := some ⟨10, 100⟩, drawingEnd := some ⟨20, 200⟩ } = { initialState with drawingMode := some LineType.horizontalline, drawingStart := some ⟨10, 100⟩, drawingEnd := some ⟨20, 200⟩ } := rfl
    have h5 : step 100 (ChartEvent.mouseUp "L1") { initialState with drawingMode := some LineType.horizontalline, drawingStart := some ⟨10, 100⟩, drawingEnd := some ⟨20, 200⟩ } = { initialState with drawingMode := some LineType.horizontalline, drawingLines := [{ id := "L1", type := LineType.horizontalline, startIndex := 10, startPrice := 100, endIndex := 20, endPrice := 200, color := "#FF5722" }], drawingStart := none, drawingEnd := none } := rfl
    show (step 100 (ChartEvent.mouseUp "L1") (step 100 (ChartEvent.key ChartKey.h) (step 100 (ChartEvent.mouseMove 20 800 0 0 99 1000) (step 100 (ChartEvent.mouseDown 10 900 0 0 99 1000) (step 100 (ChartEvent.key ChartKey.t) initialState))))).drawingLines = _
    rw [h1, h2, h3, h4, h5]
  rw [hrun]
  refine ⟨_, List.mem_singleton_self _, rfl, by norm_num⟩


end Chart
